import Mathlib

/-!
Verification of the luban notification/dispatch core.

This file gives a shallow embedding of the three components under test:

* the signal connection registry (packages/signaling/src/Signal.ts),
* the message queue and loop (packages/messaging/src/MessageLoop.ts),
* the deferred cleanup scheduler (packages/utils/src/schedule.ts),

and proves the dispatch-ordering, mutation-during-iteration and
conflation properties stated for them.

Modelling conventions:

* every JavaScript object (sender, slot, context, handler, hook, message)
  is identified by a natural-number id; identity equality of objects is
  equality of ids;
* the two WeakMap indices of the registry and the per-handler hook map
  are association lists from object id to value;
* connection objects are mutable and shared between the two indices, so
  they live in a heap (a list indexed by connection id) and the indices
  store connection ids; tombstoning a connection mutates the heap entry,
  which is visible from both indices, exactly as in the source;
* user code run during dispatch (slot bodies, hook bodies, handler
  bodies) is deep-embedded as data describing the re-entrant calls it
  makes back into the component, plus whether it throws; a thrown
  exception is a numeric token, and the configured exception handler is
  modelled as a log of the tokens routed to it;
* the host scheduler (requestAnimationFrame and friends) hands out fresh
  positive task ids; deferred tasks are modelled as data recorded in the
  state, never run implicitly.
-/

namespace Luban

/-! ## Association lists (the WeakMap indices) -/

/-- Lookup in an association list with a default for an absent key
(a WeakMap whose absent entries read as the default). -/
def lookupL {α : Type} : List (Nat × α) → Nat → α → α
  | [], _, d => d
  | p :: rest, k, d => if p.1 = k then p.2 else lookupL rest k d

/-- Set a key in an association list: replace the binding if the key is
present, append a fresh binding otherwise. -/
def setL {α : Type} : List (Nat × α) → Nat → α → List (Nat × α)
  | [], k, v => [(k, v)]
  | p :: rest, k, v => if p.1 = k then (k, v) :: rest else p :: setL rest k v

/-! ## Signal connection registry (packages/signaling/src/Signal.ts) -/

namespace Sig

/-- Object identity: every JS object participating in signaling is a
natural-number id. -/
abbrev Obj := Nat

/-- A signal instance: its own identity and the sender that owns it
(the readonly field set by the constructor). One sender may own many
signals. -/
structure SignalObj where
  id : Nat
  sender : Obj
deriving DecidableEq, Repr

/-- Private.IConnection: the connection record shared by both indices.
A cleared connection has signal = none. -/
structure Connection where
  signal : Option Nat
  slot : Obj
  context : Option Obj
deriving DecidableEq, Repr

/-- The registry state: the heap of connection objects (indexed by
connection id), and the two WeakMap indices receiversForSender and
sendersForReceiver, which store connection ids. The deferred cleanup
scheduled by scheduleCleanup never compacts synchronously, so it does
not appear here. -/
structure SigState where
  heap : List Connection
  receiversFor : List (Obj × List Nat)
  sendersFor : List (Obj × List Nat)
deriving DecidableEq, Repr

/-- The connection a given id dereferences to. Ids handed out by
connect are always in range, so the default is never reached from a
well-formed state. -/
def defaultConn : Connection := ⟨none, 0, none⟩

def connAt (st : SigState) (cid : Nat) : Connection :=
  st.heap[cid]?.getD defaultConn

/-- The test connection.signal === signal at dispatch time. -/
def liveMatch (st : SigState) (sigId cid : Nat) : Bool :=
  (connAt st cid).signal == some sigId

/-- Private.findConnection: the first connection in the list matching
(signal, slot, context) by identity. -/
def findConnection (heap : List Connection) (conns : List Nat) (sigId : Nat)
    (slot : Obj) (context : Option Obj) : Option Nat :=
  match conns with
  | [] => none
  | cid :: rest =>
    let c := heap[cid]?.getD defaultConn
    if c.signal == some sigId && c.slot == slot && c.context == context then some cid
    else findConnection heap rest sigId slot context

/-- Private.connect. The heap grows by one shared connection object on
success; the same connection id is appended to the sender's receiver
list and to the computed receiver's sender list. -/
def connect (st : SigState) (sig : SignalObj) (slot : Obj) (context : Option Obj) :
    Bool × SigState :=
  let thisArg := context
  let receivers := lookupL st.receiversFor sig.sender []
  match findConnection st.heap receivers sig.id slot thisArg with
  | some _ => (false, st)
  | none =>
    let receiver := thisArg.getD slot
    let senders := lookupL st.sendersFor receiver []
    let cid := st.heap.length
    (true,
      { heap := st.heap ++ [⟨some sig.id, slot, thisArg⟩]
        receiversFor := setL st.receiversFor sig.sender (receivers ++ [cid])
        sendersFor := setL st.sendersFor receiver (senders ++ [cid]) })

/-- Clear the signal field of the connection at the given heap index. -/
def tombstone : List Connection → Nat → List Connection
  | [], _ => []
  | c :: rest, 0 => { c with signal := none } :: rest
  | c :: rest, n + 1 => c :: tombstone rest n

/-- Private.disconnect. The matching connection is tombstoned in place;
both indices keep their entries (compaction is deferred). -/
def disconnect (st : SigState) (sig : SignalObj) (slot : Obj) (context : Option Obj) :
    Bool × SigState :=
  let thisArg := context
  let receivers := lookupL st.receiversFor sig.sender []
  if receivers.isEmpty then (false, st)
  else
    match findConnection st.heap receivers sig.id slot thisArg with
    | none => (false, st)
    | some cid => (true, { st with heap := tombstone st.heap cid })

/-- The body of a connected slot, deep-embedded: the re-entrant calls it
makes back into the registry, in order. A throws action aborts the rest
of the body with an exception carrying the given token. -/
inductive SlotAction where
  | throws (e : Nat)
  | connects (sig : SignalObj) (slot : Obj) (context : Option Obj)
  | disconnects (sig : SignalObj) (slot : Obj) (context : Option Obj)
deriving DecidableEq, Repr

/-- What each slot does when called. -/
abbrev Behavior := Obj → List SlotAction

/-- State threaded through an emission: the registry plus the
observation logs. invoked records (connection id, slot id) for each slot
call in order; errors records the tokens routed to the signal exception
handler. -/
structure EmitState where
  sig : SigState
  invoked : List (Nat × Obj)
  errors : List Nat
deriving DecidableEq, Repr

/-- Run a slot body: perform its re-entrant calls until it finishes or
throws, returning the new registry state and the thrown token if any. -/
def runActions (st : SigState) : List SlotAction → SigState × Option Nat
  | [] => (st, none)
  | SlotAction.throws e :: _ => (st, some e)
  | SlotAction.connects sg s c :: rest => runActions (connect st sg s c).2 rest
  | SlotAction.disconnects sg s c :: rest => runActions (disconnect st sg s c).2 rest

/-- Private.invokeSlot: call the slot as slot.call(context, sender, args),
catching an exception and routing it to the exception handler. The call
is logged as (connection id, slot id); sender and args are the same for
every call of one emission, and the body's actions depend only on the
slot's identity. -/
def invokeSlot (beh : Behavior) (_args : Nat) (cid : Nat) (conn : Connection)
    (es : EmitState) : EmitState :=
  let es1 := { es with invoked := es.invoked ++ [(cid, conn.slot)] }
  match runActions es1.sig (beh conn.slot) with
  | (sg, none) => { es1 with sig := sg }
  | (sg, some e) => { es1 with sig := sg, errors := es1.errors ++ [e] }

/-- One iteration of receivers.forEach in Private.emit: the element at
the current index and the connection it references are re-read from the
current state, and the entry is dispatched exactly when its signal field
still equals the emitting signal. -/
def emitStep (beh : Behavior) (sig : SignalObj) (args : Nat) (k : Nat)
    (es : EmitState) : EmitState :=
  let rs := lookupL es.sig.receiversFor sig.sender []
  match rs[k]? with
  | none => es
  | some cid =>
    if liveMatch es.sig sig.id cid then
      invokeSlot beh args cid (connAt es.sig cid) es
    else es

/-- The receivers.forEach loop of Private.emit: the iteration bound was
fixed (as fuel) before the first callback ran, while each step re-reads
the current state. -/
def emitSteps (beh : Behavior) (sig : SignalObj) (args : Nat) :
    Nat → Nat → EmitState → EmitState
  | _, 0, es => es
  | k, fuel + 1, es =>
    emitSteps beh sig args (k + 1) fuel (emitStep beh sig args k es)

/-- Private.emit: bail when the sender has no receivers, otherwise run
receivers.forEach with the length captured at entry. Emission starts
with empty logs. -/
def emit (beh : Behavior) (sig : SignalObj) (args : Nat) (st : SigState) : EmitState :=
  let rs := lookupL st.receiversFor sig.sender []
  if rs.isEmpty then ⟨st, [], []⟩
  else emitSteps beh sig args 0 rs.length ⟨st, [], []⟩

/-- A slot-body action that does not call back into the registry. -/
def pureAct : SlotAction → Bool
  | SlotAction.throws _ => true
  | _ => false

/-- A slot-body action that is not a connect call. -/
def noConnectAct : SlotAction → Bool
  | SlotAction.connects _ _ _ => false
  | _ => true

/-- The token of the exception a slot body raises, if any (the first
throws action reached). -/
def thrownOf : List SlotAction → Option Nat
  | [] => none
  | SlotAction.throws e :: _ => some e
  | _ :: rest => thrownOf rest

/-- Every slot body only observes and possibly throws. -/
def pureBeh (beh : Behavior) : Prop :=
  ∀ s, (beh s).all pureAct = true

/-- No slot body makes a connect call (disconnects and throws allowed). -/
def noConnectBeh (beh : Behavior) : Prop :=
  ∀ s, (beh s).all noConnectAct = true

end Sig

/-! ## Message queue and loop (packages/messaging/src/MessageLoop.ts) -/

namespace Loop

/-- A message: its object identity, its type discriminator, whether it
is conflatable, and the ids of the messages this instance has absorbed
so far by conflation (the observable effect of conflate returning
true). -/
structure Msg where
  id : Nat
  type : Nat
  isConflatable : Bool
  merged : List Nat
deriving DecidableEq, Repr

/-- A posted-message queue entry. Identity distinguishes the sentinel
from an entry cleared by clearData (handler and msg both null), exactly
as the reference comparison posted === sentinel does. -/
inductive QEntry where
  | posted (handler : Option Nat) (msg : Option Msg)
  | sentinel
deriving DecidableEq, Repr

/-- The state of the MessageLoop namespace: the single global message
queue, the per-handler hook lists (null = tombstoned entry), the pending
loop task id (0 = none), the scheduler's fresh-id counter, and the
observation logs: processMessage deliveries, hook invocations, and the
tokens routed to the loop exception handler. The deferred hookCleaner
never compacts synchronously, so it does not appear here. -/
structure LoopState where
  queue : List QEntry
  hooks : List (Nat × List (Option Nat))
  loopTaskID : Nat
  nextTaskID : Nat
  processed : List (Nat × Msg)
  hookLog : List Nat
  errors : List Nat
deriving DecidableEq, Repr

/-- The result of a hook body: return a verdict, or throw. -/
inductive HookResult where
  | ret (b : Bool)
  | throws (e : Nat)
deriving DecidableEq, Repr

/-- A re-entrant call a hook body makes back into the loop. -/
inductive HookAction where
  | install (handler : Nat) (hook : Nat)
  | remove (handler : Nat) (hook : Nat)
deriving DecidableEq, Repr

/-- A hook body, deep-embedded: the calls it performs, then its result. -/
structure HookProg where
  actions : List HookAction
  result : HookResult
deriving DecidableEq, Repr

/-- A handler's processMessage body: the postMessage calls it performs,
then an optional throw. -/
structure HandlerProg where
  posts : List (Nat × Msg)
  throwTok : Option Nat
deriving DecidableEq, Repr

/-- The user code supplied to the loop: hook bodies (a function of the
hook's identity and the message under delivery), handler bodies (a
function of the handler's identity and the delivered message), and the
conflate method (a function of the queued message and the new one). -/
structure Beh where
  hookFn : Nat → Msg → HookProg
  handlerFn : Nat → Msg → HandlerProg
  confl : Msg → Msg → Bool

/-- The hook list of a handler; an absent WeakMap entry reads as []. -/
def lookupHooks (st : LoopState) (handler : Nat) : List (Option Nat) :=
  lookupL st.hooks handler []

/-- MessageLoop.installMessageHook: a no-op if the hook is already
present, otherwise append it to the end of the handler's list. -/
def installMessageHook (st : LoopState) (handler hook : Nat) : LoopState :=
  let hooks := lookupHooks st handler
  if hooks.contains (some hook) then st
  else { st with hooks := setL st.hooks handler (hooks ++ [some hook]) }

/-- MessageLoop.removeMessageHook: tombstone the matching entry in place
(compaction is deferred); a no-op if the hook is not installed. -/
def removeMessageHook (st : LoopState) (handler hook : Nat) : LoopState :=
  let hooks := lookupHooks st handler
  match hooks.findIdx? (· == some hook) with
  | none => st
  | some i => { st with hooks := setL st.hooks handler (hooks.set i none) }

/-- Apply the re-entrant calls of a hook body. -/
def applyHookActions (st : LoopState) : List HookAction → LoopState
  | [] => st
  | HookAction.install h k :: rest => applyHookActions (installMessageHook st h k) rest
  | HookAction.remove h k :: rest => applyHookActions (removeMessageHook st h k) rest

/-- invokeHook: run the hook, catching a thrown exception, routing it to
the loop exception handler, and treating the hook as passing (result
stays true when the assignment never happened). The invocation is
logged. -/
def invokeHook (beh : Beh) (hook : Nat) (msg : Msg) (st : LoopState) :
    LoopState × Bool :=
  let st1 := { st with hookLog := st.hookLog ++ [hook] }
  let prog := beh.hookFn hook msg
  let st2 := applyHookActions st1 prog.actions
  match prog.result with
  | HookResult.ret b => (st2, b)
  | HookResult.throws e => ({ st2 with errors := st2.errors ++ [e] }, true)

/-- The conflation scan of MessageLoop.postMessage: walk the queue front
to back; the first entry for the same handler whose message is non-null,
of the same type and conflatable is asked to conflate the new message;
true absorbs it (the entry records the merge, nothing else changes and
the scan stops), false continues the scan. Returns none when no entry
absorbed the message. -/
def conflateScan (confl : Msg → Msg → Bool) (handler : Nat) (m : Msg) :
    List QEntry → Option (List QEntry)
  | [] => none
  | QEntry.posted (some h) (some pm) :: rest =>
    if h == handler && pm.type == m.type && pm.isConflatable then
      if confl pm m then
        some (QEntry.posted (some h) (some { pm with merged := pm.merged ++ [m.id] }) :: rest)
      else
        (conflateScan confl handler m rest).map (QEntry.posted (some h) (some pm) :: ·)
    else
      (conflateScan confl handler m rest).map (QEntry.posted (some h) (some pm) :: ·)
  | e :: rest => (conflateScan confl handler m rest).map (e :: ·)

/-- enqueueMessage: append to the global queue and schedule a run of the
message loop if none is pending. -/
def enqueueMessage (handler : Nat) (m : Msg) (st : LoopState) : LoopState :=
  let st1 := { st with queue := st.queue ++ [QEntry.posted (some handler) (some m)] }
  if st1.loopTaskID ≠ 0 then st1
  else { st1 with loopTaskID := st1.nextTaskID, nextTaskID := st1.nextTaskID + 1 }

/-- MessageLoop.postMessage: a non-conflatable message is enqueued
directly; a conflatable one is first offered to the queue via the
conflation scan and enqueued only if nothing absorbed it. -/
def postMessage (confl : Msg → Msg → Bool) (handler : Nat) (m : Msg)
    (st : LoopState) : LoopState :=
  if !m.isConflatable then enqueueMessage handler m st
  else
    match conflateScan confl handler m st.queue with
    | some q => { st with queue := q }
    | none => enqueueMessage handler m st

/-- invokeHandler: deliver to handler.processMessage, catching a thrown
exception and routing it to the loop exception handler. The delivery is
logged, then the body's own postMessage calls run. -/
def invokeHandler (beh : Beh) (handler : Nat) (m : Msg) (st : LoopState) : LoopState :=
  let st1 := { st with processed := st.processed ++ [(handler, m)] }
  let prog := beh.handlerFn handler m
  let st2 := prog.posts.foldl (fun s p => postMessage beh.confl p.1 p.2 s) st1
  match prog.throwTok with
  | none => st2
  | some e => { st2 with errors := st2.errors ++ [e] }

/-- The hook chain of sendMessage: [...hooks].reverse().every(...) —
null entries pass, a hook is invoked and its verdict taken, and the
first false verdict stops the chain. The list argument is the snapshot
copy, iterated even as the original list mutates in the state. -/
def runChain (beh : Beh) (msg : Msg) : List (Option Nat) → LoopState → LoopState × Bool
  | [], st => (st, true)
  | none :: rest, st => runChain beh msg rest st
  | some h :: rest, st =>
    let r := invokeHook beh h msg st
    if r.2 then runChain beh msg rest r.1 else (r.1, false)

/-- MessageLoop.sendMessage: with no installed hooks deliver directly;
otherwise evaluate the snapshot of the hook list newest-first and
deliver only if every consulted hook passes. -/
def sendMessage (beh : Beh) (handler : Nat) (m : Msg) (st : LoopState) : LoopState :=
  let hooks := lookupHooks st handler
  if hooks.isEmpty then invokeHandler beh handler m st
  else
    let r := runChain beh m hooks.reverse st
    if r.2 then invokeHandler beh handler m r.1 else r.1

/-- MessageLoop.clearData: tombstone every hook of the handler and null
out both fields of every queue entry posted to it. -/
def clearData (st : LoopState) (handler : Nat) : LoopState :=
  let hooks := lookupHooks st handler
  let st1 :=
    if hooks.isEmpty then st
    else { st with hooks := setL st.hooks handler (hooks.map (fun _ => none)) }
  { st1 with
    queue := st1.queue.map (fun e =>
      match e with
      | QEntry.posted (some h) m =>
        if h == handler then QEntry.posted none none else QEntry.posted (some h) m
      | e => e) }

/-- The while-true loop of runMessageLoop: shift the front of the queue;
stop on the sentinel; dispatch entries whose handler and msg are both
non-null via sendMessage; skip cleared entries. The fuel is one more
than the number of entries ahead of the sentinel, so it never runs out
on a queue of the shape the caller establishes. -/
def drainLoop (beh : Beh) : Nat → LoopState → LoopState
  | 0, st => st
  | fuel + 1, st =>
    match st.queue with
    | [] => st
    | QEntry.sentinel :: rest => { st with queue := rest }
    | QEntry.posted hd m :: rest =>
      let st1 := { st with queue := rest }
      let st2 :=
        match hd, m with
        | some hd, some m => sendMessage beh hd m st1
        | _, _ => st1
      drainLoop beh fuel st2

/-- runMessageLoop: clear the pending task id, bail on an empty queue,
append the sentinel bounding this drain to the entries present now, and
run the shift loop. -/
def runMessageLoop (beh : Beh) (st : LoopState) : LoopState :=
  let st1 := { st with loopTaskID := 0 }
  if st1.queue.isEmpty then st1
  else drainLoop beh (st1.queue.length + 1) { st1 with queue := st1.queue ++ [QEntry.sentinel] }

/-- Reference drain of one cycle, following the specification's words:
process exactly the given entries in order, delivering each non-cleared
one via the sendMessage path and skipping cleared ones; anything the
handlers post accumulates in the state's queue for the next cycle. -/
def processEntries (beh : Beh) : List QEntry → LoopState → LoopState
  | [], st => st
  | QEntry.posted (some h) (some m) :: rest, st =>
    processEntries beh rest (sendMessage beh h m st)
  | _ :: rest, st => processEntries beh rest st

/-- Post a list of (handler, message) pairs in order. -/
def postAll (confl : Msg → Msg → Bool) (ps : List (Nat × Msg)) (st : LoopState) :
    LoopState :=
  ps.foldl (fun s p => postMessage confl p.1 p.2 s) st

/-- The verdict a hook effectively yields to the chain: its returned
Bool, or true when it throws (the code path where the assignment to
result never ran). -/
def hookVerdict (p : HookProg) : Bool :=
  match p.result with
  | HookResult.ret b => b
  | HookResult.throws _ => true

/-- The token a hook body throws, if any. -/
def thrownTok (p : HookProg) : Option Nat :=
  match p.result with
  | HookResult.throws e => some e
  | HookResult.ret _ => none

/-- Whether a queue entry would absorb the message m posted to handler:
it must hold a non-null message for the same handler, of the same type,
conflatable, and its conflate method must accept m. -/
def absorbs (confl : Msg → Msg → Bool) (handler : Nat) (m : Msg) : QEntry → Bool
  | QEntry.posted (some h) (some pm) =>
    h == handler && pm.type == m.type && pm.isConflatable && confl pm m
  | _ => false

/-- Every message a handler body posts is non-conflatable, so the posts
made during a drain always take the append path. -/
def nonConflPosts (beh : Beh) : Prop :=
  ∀ h m, ∀ p ∈ (beh.handlerFn h m).posts, p.2.isConflatable = false

end Loop

/-! ## Deferred cleanup scheduler (packages/utils/src/schedule.ts) -/

namespace Cleaner

/-- The state of one ScheduledCleaner instance together with the host
scheduler's view of it: the dirty set of array ids in insertion order,
the recorded scheduleId (0 = none recorded), the ids of scheduled tasks
of this cleaner that have not fired, and the scheduler's fresh-id
counter (ids start at 1, so a real id is never 0). -/
structure CleanerState where
  dirtySet : List Nat
  scheduleId : Nat
  pendingTasks : List Nat
  nextId : Nat
deriving DecidableEq, Repr

/-- A freshly constructed cleaner. -/
def initState : CleanerState := ⟨[], 0, [], 1⟩

/-- ScheduledCleaner.clean: schedule the deferred dump exactly when the
dirty set is empty at the time of the call, then add the array to the
dirty set (a Set, so adding a present element is a no-op). -/
def clean (st : CleanerState) (a : Nat) : CleanerState :=
  let st1 :=
    if st.dirtySet.length = 0 then
      { st with
        scheduleId := st.nextId
        pendingTasks := st.pendingTasks ++ [st.nextId]
        nextId := st.nextId + 1 }
    else st
  if st1.dirtySet.contains a then st1 else { st1 with dirtySet := st1.dirtySet ++ [a] }

/-- ScheduledCleaner.cancel: unschedule the recorded task, if any, and
forget its id. The dirty set is not touched and nothing is compacted. -/
def cancel (st : CleanerState) : CleanerState :=
  if st.scheduleId ≠ 0 then
    { st with pendingTasks := st.pendingTasks.erase st.scheduleId, scheduleId := 0 }
  else st

/-- An operation of the claimed interleaving: registerDirty is clean,
cancelPending is cancel. -/
inductive CleanerOp where
  | registerDirty (a : Nat)
  | cancelPending
deriving DecidableEq, Repr

/-- Run a sequence of operations on a cleaner state. -/
def runOps (ops : List CleanerOp) (st : CleanerState) : CleanerState :=
  ops.foldl
    (fun s op =>
      match op with
      | CleanerOp.registerDirty a => clean s a
      | CleanerOp.cancelPending => cancel s)
    st

/-- Invariant of reachable cleaner states: scheduler ids are positive,
and the recorded scheduleId agrees with the set of unfired tasks, which
holds at most one; a task can only be recorded while arrays are dirty. -/
def Inv (st : CleanerState) : Prop :=
  1 ≤ st.nextId ∧
  ((st.pendingTasks = [] ∧ st.scheduleId = 0) ∨
    (st.pendingTasks = [st.scheduleId] ∧ st.scheduleId ≠ 0 ∧ st.dirtySet ≠ []))

/-- The stronger invariant that holds as long as cancel is never called:
a non-empty dirty set keeps a task scheduled. -/
def InvNC (st : CleanerState) : Prop :=
  Inv st ∧ (st.dirtySet ≠ [] → st.pendingTasks ≠ [])

end Cleaner

/-! ## C8: hook chain — newest first, veto short-circuit, throw passes -/

namespace Loop

theorem installMessageHook_obs (st : LoopState) (h k : Nat) :
    (installMessageHook st h k).hookLog = st.hookLog ∧
    (installMessageHook st h k).processed = st.processed ∧
    (installMessageHook st h k).errors = st.errors ∧
    (installMessageHook st h k).queue = st.queue := by
  unfold installMessageHook
  dsimp only
  split <;> exact ⟨rfl, rfl, rfl, rfl⟩

theorem removeMessageHook_obs (st : LoopState) (h k : Nat) :
    (removeMessageHook st h k).hookLog = st.hookLog ∧
    (removeMessageHook st h k).processed = st.processed ∧
    (removeMessageHook st h k).errors = st.errors ∧
    (removeMessageHook st h k).queue = st.queue := by
  unfold removeMessageHook
  dsimp only
  split <;> exact ⟨rfl, rfl, rfl, rfl⟩

theorem applyHookActions_obs :
    ∀ (acts : List HookAction) (st : LoopState),
      (applyHookActions st acts).hookLog = st.hookLog ∧
      (applyHookActions st acts).processed = st.processed ∧
      (applyHookActions st acts).errors = st.errors ∧
      (applyHookActions st acts).queue = st.queue := by
  intro acts
  induction acts with
  | nil => intro st; exact ⟨rfl, rfl, rfl, rfl⟩
  | cons a rest ih =>
    intro st
    cases a with
    | install h k =>
      obtain ⟨h1, h2, h3, h4⟩ := ih (installMessageHook st h k)
      obtain ⟨g1, g2, g3, g4⟩ := installMessageHook_obs st h k
      exact ⟨h1.trans g1, h2.trans g2, h3.trans g3, h4.trans g4⟩
    | remove h k =>
      obtain ⟨h1, h2, h3, h4⟩ := ih (removeMessageHook st h k)
      obtain ⟨g1, g2, g3, g4⟩ := removeMessageHook_obs st h k
      exact ⟨h1.trans g1, h2.trans g2, h3.trans g3, h4.trans g4⟩

theorem invokeHook_spec (beh : Beh) (h : Nat) (m : Msg) (st : LoopState) :
    (invokeHook beh h m st).1.hookLog = st.hookLog ++ [h] ∧
    (invokeHook beh h m st).1.processed = st.processed ∧
    (invokeHook beh h m st).1.errors = st.errors ++ (thrownTok (beh.hookFn h m)).toList ∧
    (invokeHook beh h m st).1.queue = st.queue ∧
    (invokeHook beh h m st).2 = hookVerdict (beh.hookFn h m) := by
  unfold invokeHook
  dsimp only
  obtain ⟨h1, h2, h3, h4⟩ := applyHookActions_obs (beh.hookFn h m).actions
    { st with hookLog := st.hookLog ++ [h] }
  cases hr : (beh.hookFn h m).result with
  | ret b => simp [hr, hookVerdict, thrownTok, h1, h2, h3, h4]
  | throws e => simp [hr, hookVerdict, thrownTok, h1, h2, h3, h4]

theorem thrownTok_of_verdict_false (p : HookProg) (h : hookVerdict p = false) :
    thrownTok p = none := by
  unfold hookVerdict at h
  unfold thrownTok
  cases hr : p.result with
  | ret b => rfl
  | throws e => rw [hr] at h; simp at h

theorem runChain_veto (beh : Beh) (m : Msg) (hv : Nat) :
    ∀ (pre : List (Option Nat)) (post : List (Option Nat)) (st : LoopState),
      (∀ e ∈ pre, e = none ∨ ∃ h, e = some h ∧ hookVerdict (beh.hookFn h m) = true) →
      hookVerdict (beh.hookFn hv m) = false →
      (runChain beh m (pre ++ some hv :: post) st).2 = false ∧
      (runChain beh m (pre ++ some hv :: post) st).1.hookLog =
        st.hookLog ++ pre.filterMap id ++ [hv] ∧
      (runChain beh m (pre ++ some hv :: post) st).1.processed = st.processed ∧
      (runChain beh m (pre ++ some hv :: post) st).1.errors =
        st.errors ++ pre.filterMap (fun e => e.bind fun h => thrownTok (beh.hookFn h m)) := by
  intro pre
  induction pre with
  | nil =>
    intro post st _ hfv
    obtain ⟨h1, h2, h3, _, h5⟩ := invokeHook_spec beh hv m st
    have hr2 : (invokeHook beh hv m st).2 = false := by rw [h5, hfv]
    have hstep : runChain beh m ([] ++ some hv :: post) st =
        ((invokeHook beh hv m st).1, false) := by
      show (if (invokeHook beh hv m st).2 = true then
          runChain beh m post (invokeHook beh hv m st).1
        else ((invokeHook beh hv m st).1, false)) = _
      rw [hr2]
      simp
    rw [hstep]
    refine ⟨rfl, by rw [h1]; simp, h2, ?_⟩
    rw [h3, thrownTok_of_verdict_false _ hfv]
    simp
  | cons e pre ih =>
    intro post st hpre hfv
    have hpre_tail : ∀ x ∈ pre, x = none ∨ ∃ h, x = some h ∧
        hookVerdict (beh.hookFn h m) = true :=
      fun x hx => hpre x (List.mem_cons_of_mem e hx)
    rcases hpre e (List.mem_cons_self e pre) with he | ⟨h, heq, hvt⟩
    · subst he
      obtain ⟨g2, g3, g4, g5⟩ := ih post st hpre_tail hfv
      have hstep : runChain beh m ((none :: pre) ++ some hv :: post) st =
          runChain beh m (pre ++ some hv :: post) st := rfl
      rw [hstep]
      exact ⟨g2, by rw [g3]; simp, g4, by rw [g5]; simp⟩
    · subst heq
      obtain ⟨h1, h2, h3, _, h5⟩ := invokeHook_spec beh h m st
      have hr2 : (invokeHook beh h m st).2 = true := by rw [h5, hvt]
      obtain ⟨g2, g3, g4, g5⟩ := ih post (invokeHook beh h m st).1 hpre_tail hfv
      have hstep : runChain beh m ((some h :: pre) ++ some hv :: post) st =
          runChain beh m (pre ++ some hv :: post) (invokeHook beh h m st).1 := by
        show (if (invokeHook beh h m st).2 = true then
            runChain beh m (pre ++ some hv :: post) (invokeHook beh h m st).1
          else ((invokeHook beh h m st).1, false)) = _
        rw [hr2]
        simp
      rw [hstep]
      refine ⟨g2, ?_, g4.trans h2, ?_⟩
      · rw [g3, h1]
        simp [List.append_assoc]
      · rw [g5, h3]
        cases hth : thrownTok (beh.hookFn h m) <;> simp [hth, List.append_assoc]

/-- C8. For every sendMessage whose hook list, read newest-first, is
some passing entries (null, effectively-true, or throwing — a throw is
caught, routed to the loop exception handler, and treated as true)
followed by a vetoing hook hv: exactly the passing hooks and then hv are
invoked, in newest-first order; no hook behind hv runs; the handler's
processMessage is never called; and the tokens thrown by earlier hooks
are routed to the exception handler log in order. -/
theorem sendMessage_hook_chain (beh : Beh) (handler : Nat) (m : Msg) (st : LoopState)
    (pre post : List (Option Nat)) (hv : Nat)
    (hl : (lookupHooks st handler).reverse = pre ++ some hv :: post)
    (hpre : ∀ e ∈ pre, e = none ∨ ∃ h, e = some h ∧ hookVerdict (beh.hookFn h m) = true)
    (hfv : hookVerdict (beh.hookFn hv m) = false) :
    (sendMessage beh handler m st).hookLog = st.hookLog ++ pre.filterMap id ++ [hv] ∧
    (sendMessage beh handler m st).processed = st.processed ∧
    (sendMessage beh handler m st).errors =
      st.errors ++ pre.filterMap (fun e => e.bind fun h => thrownTok (beh.hookFn h m)) := by
  have hne : (lookupHooks st handler).isEmpty = false := by
    cases hh : lookupHooks st handler with
    | nil => rw [hh] at hl; exact absurd hl.symm (by simp)
    | cons a l => rfl
  obtain ⟨hv2, hlog, hproc, herr⟩ := runChain_veto beh m hv pre post st hpre hfv
  unfold sendMessage
  simp only [hne, Bool.false_eq_true, if_false]
  rw [hl, hv2]
  simp only [Bool.false_eq_true, if_false]
  exact ⟨hlog, hproc, herr⟩

/-- Witness for C8 at a concrete input: handler 7 with hooks 1, 2, 3
installed in that order, all vetoing; sending the message invokes hook 3
only (the newest), the chain stops there, and the handler never receives
the message. -/
theorem sendMessage_hook_chain_witness :
    (sendMessage
        ⟨fun _ _ => ⟨[], HookResult.ret false⟩, fun _ _ => ⟨[], none⟩, fun _ _ => false⟩
        7 ⟨1, 1, false, []⟩
        { queue := [], hooks := [(7, [some 1, some 2, some 3])], loopTaskID := 0,
          nextTaskID := 1, processed := [], hookLog := [], errors := [] }).hookLog =
      [3] ∧
    (sendMessage
        ⟨fun _ _ => ⟨[], HookResult.ret false⟩, fun _ _ => ⟨[], none⟩, fun _ _ => false⟩
        7 ⟨1, 1, false, []⟩
        { queue := [], hooks := [(7, [some 1, some 2, some 3])], loopTaskID := 0,
          nextTaskID := 1, processed := [], hookLog := [], errors := [] }).processed =
      [] := by
  obtain ⟨h1, h2, h3⟩ := sendMessage_hook_chain
    ⟨fun _ _ => ⟨[], HookResult.ret false⟩, fun _ _ => ⟨[], none⟩, fun _ _ => false⟩
    7 ⟨1, 1, false, []⟩
    { queue := [], hooks := [(7, [some 1, some 2, some 3])], loopTaskID := 0,
      nextTaskID := 1, processed := [], hookLog := [], errors := [] }
    [] [some 2, some 1] 3 (by decide) (by intro e he; cases he) (by decide)
  exact ⟨by rw [h1]; decide, h2⟩

end Loop

/-! ## C10: the hook chain runs over a snapshot of the hook list -/

namespace Loop

theorem enqueueMessage_obs (h : Nat) (m : Msg) (st : LoopState) :
    (enqueueMessage h m st).hookLog = st.hookLog ∧
    (enqueueMessage h m st).processed = st.processed ∧
    (enqueueMessage h m st).errors = st.errors ∧
    (enqueueMessage h m st).hooks = st.hooks := by
  unfold enqueueMessage
  dsimp only
  split <;> exact ⟨rfl, rfl, rfl, rfl⟩

theorem postMessage_obs (confl : Msg → Msg → Bool) (h : Nat) (m : Msg) (st : LoopState) :
    (postMessage confl h m st).hookLog = st.hookLog ∧
    (postMessage confl h m st).processed = st.processed ∧
    (postMessage confl h m st).errors = st.errors ∧
    (postMessage confl h m st).hooks = st.hooks := by
  unfold postMessage
  cases hc : m.isConflatable with
  | false => exact enqueueMessage_obs h m st
  | true =>
    simp only [hc, Bool.not_true, Bool.false_eq_true, if_false]
    cases hs : conflateScan confl h m st.queue with
    | some q => exact ⟨rfl, rfl, rfl, rfl⟩
    | none => exact enqueueMessage_obs h m st

theorem postsFold_obs (confl : Msg → Msg → Bool) :
    ∀ (ps : List (Nat × Msg)) (st : LoopState),
      ((ps.foldl (fun s p => postMessage confl p.1 p.2 s) st).hookLog = st.hookLog ∧
        (ps.foldl (fun s p => postMessage confl p.1 p.2 s) st).processed = st.processed ∧
        (ps.foldl (fun s p => postMessage confl p.1 p.2 s) st).errors = st.errors ∧
        (ps.foldl (fun s p => postMessage confl p.1 p.2 s) st).hooks = st.hooks) := by
  intro ps
  induction ps with
  | nil => intro st; exact ⟨rfl, rfl, rfl, rfl⟩
  | cons p rest ih =>
    intro st
    obtain ⟨h1, h2, h3, h4⟩ := ih (postMessage confl p.1 p.2 st)
    obtain ⟨g1, g2, g3, g4⟩ := postMessage_obs confl p.1 p.2 st
    exact ⟨h1.trans g1, h2.trans g2, h3.trans g3, h4.trans g4⟩

theorem invokeHandler_obs (beh : Beh) (handler : Nat) (m : Msg) (st : LoopState) :
    (invokeHandler beh handler m st).processed = st.processed ++ [(handler, m)] ∧
    (invokeHandler beh handler m st).hookLog = st.hookLog ∧
    (invokeHandler beh handler m st).hooks = st.hooks := by
  unfold invokeHandler
  dsimp only
  obtain ⟨f1, f2, f3, f4⟩ := postsFold_obs beh.confl (beh.handlerFn handler m).posts
    { st with processed := st.processed ++ [(handler, m)] }
  cases ht : (beh.handlerFn handler m).throwTok <;> simp [ht, f1, f2, f4]

theorem runChain_hookLog_extends (beh : Beh) (m : Msg) :
    ∀ (chain : List (Option Nat)) (st : LoopState),
      ∃ t, (runChain beh m chain st).1.hookLog = st.hookLog ++ t := by
  intro chain
  induction chain with
  | nil => intro st; exact ⟨[], by simp [runChain]⟩
  | cons e rest ih =>
    intro st
    cases e with
    | none => exact ih st
    | some h =>
      cases hr : (invokeHook beh h m st).2 with
      | false =>
        refine ⟨[h], ?_⟩
        have hstep : runChain beh m (some h :: rest) st =
            ((invokeHook beh h m st).1, false) := by
          show (if (invokeHook beh h m st).2 = true then
              runChain beh m rest (invokeHook beh h m st).1
            else ((invokeHook beh h m st).1, false)) = _
          rw [hr]
          simp
        rw [hstep]
        exact (invokeHook_spec beh h m st).1
      | true =>
        obtain ⟨t, ht⟩ := ih (invokeHook beh h m st).1
        refine ⟨[h] ++ t, ?_⟩
        have hstep : runChain beh m (some h :: rest) st =
            runChain beh m rest (invokeHook beh h m st).1 := by
          show (if (invokeHook beh h m st).2 = true then
              runChain beh m rest (invokeHook beh h m st).1
            else ((invokeHook beh h m st).1, false)) = _
          rw [hr]
          simp
        rw [hstep, ht, (invokeHook_spec beh h m st).1, List.append_assoc]

theorem runChain_hookLog_sources (beh : Beh) (m : Msg) :
    ∀ (chain : List (Option Nat)) (st : LoopState) (p : Nat),
      p ∈ (runChain beh m chain st).1.hookLog →
      p ∈ st.hookLog ∨ some p ∈ chain := by
  intro chain
  induction chain with
  | nil => intro st p hp; exact Or.inl hp
  | cons e rest ih =>
    intro st p hp
    cases e with
    | none =>
      rcases ih st p hp with h | h
      · exact Or.inl h
      · exact Or.inr (List.mem_cons_of_mem _ h)
    | some h =>
      cases hr : (invokeHook beh h m st).2 with
      | false =>
        have hstep : runChain beh m (some h :: rest) st =
            ((invokeHook beh h m st).1, false) := by
          show (if (invokeHook beh h m st).2 = true then
              runChain beh m rest (invokeHook beh h m st).1
            else ((invokeHook beh h m st).1, false)) = _
          rw [hr]
          simp
        rw [hstep, (invokeHook_spec beh h m st).1] at hp
        rcases List.mem_append.mp hp with h1 | h2
        · exact Or.inl h1
        · have hph : p = h := by simpa using h2
          exact Or.inr (by rw [hph]; exact List.mem_cons_self _ _)
      | true =>
        have hstep : runChain beh m (some h :: rest) st =
            runChain beh m rest (invokeHook beh h m st).1 := by
          show (if (invokeHook beh h m st).2 = true then
              runChain beh m rest (invokeHook beh h m st).1
            else ((invokeHook beh h m st).1, false)) = _
          rw [hr]
          simp
        rw [hstep] at hp
        rcases ih _ p hp with h1 | h1
        · rw [(invokeHook_spec beh h m st).1] at h1
          rcases List.mem_append.mp h1 with h2 | h2
          · exact Or.inl h2
          · have hph : p = h := by simpa using h2
            exact Or.inr (by rw [hph]; exact List.mem_cons_self _ _)
        · exact Or.inr (List.mem_cons_of_mem _ h1)

theorem runChain_reaches (beh : Beh) (m : Msg) (h : Nat) :
    ∀ (pre post : List (Option Nat)) (st : LoopState),
      (∀ e ∈ pre, e = none ∨ ∃ h', e = some h' ∧ hookVerdict (beh.hookFn h' m) = true) →
      h ∈ (runChain beh m (pre ++ some h :: post) st).1.hookLog := by
  intro pre
  induction pre with
  | nil =>
    intro post st _
    cases hr : (invokeHook beh h m st).2 with
    | false =>
      have hstep : runChain beh m ([] ++ some h :: post) st =
          ((invokeHook beh h m st).1, false) := by
        show (if (invokeHook beh h m st).2 = true then
            runChain beh m post (invokeHook beh h m st).1
          else ((invokeHook beh h m st).1, false)) = _
        rw [hr]
        simp
      rw [hstep, (invokeHook_spec beh h m st).1]
      simp
    | true =>
      have hstep : runChain beh m ([] ++ some h :: post) st =
          runChain beh m post (invokeHook beh h m st).1 := by
        show (if (invokeHook beh h m st).2 = true then
            runChain beh m post (invokeHook beh h m st).1
          else ((invokeHook beh h m st).1, false)) = _
        rw [hr]
        simp
      obtain ⟨t, ht⟩ := runChain_hookLog_extends beh m post (invokeHook beh h m st).1
      rw [hstep, ht, (invokeHook_spec beh h m st).1]
      simp
  | cons e pre ih =>
    intro post st hpre
    have hpre_tail : ∀ x ∈ pre, x = none ∨ ∃ h', x = some h' ∧
        hookVerdict (beh.hookFn h' m) = true :=
      fun x hx => hpre x (List.mem_cons_of_mem e hx)
    rcases hpre e (List.mem_cons_self e pre) with he | ⟨h', heq, hvt⟩
    · subst he
      exact ih post st hpre_tail
    · subst heq
      have hr2 : (invokeHook beh h' m st).2 = true := by
        rw [(invokeHook_spec beh h' m st).2.2.2.2, hvt]
      have hstep : runChain beh m ((some h' :: pre) ++ some h :: post) st =
          runChain beh m (pre ++ some h :: post) (invokeHook beh h' m st).1 := by
        show (if (invokeHook beh h' m st).2 = true then
            runChain beh m (pre ++ some h :: post) (invokeHook beh h' m st).1
          else ((invokeHook beh h' m st).1, false)) = _
        rw [hr2]
        simp
      rw [hstep]
      exact ih post (invokeHook beh h' m st).1 hpre_tail

theorem runChain_all_none (beh : Beh) (m : Msg) :
    ∀ (chain : List (Option Nat)) (st : LoopState),
      (∀ e ∈ chain, e = none) → runChain beh m chain st = (st, true) := by
  intro chain
  induction chain with
  | nil => intro st _; rfl
  | cons e rest ih =>
    intro st hall
    have he : e = none := hall e (List.mem_cons_self e rest)
    subst he
    exact ih st fun x hx => hall x (List.mem_cons_of_mem _ hx)

/-- C10. sendMessage evaluates the hook chain over a snapshot copy of
the handler's hook list taken before the first hook runs: (1) a hook
present in the snapshot behind only passing entries is still invoked —
even when an earlier hook of the same chain tombstones it via
removeMessageHook, since no restriction is placed on what the earlier
hooks' bodies do; (2) every hook invoked during the call was already in
the list when the snapshot was taken, so a hook installed by
installMessageHook during the chain is not invoked in that chain; and
(3) entries that were already null at snapshot time are skipped as
passing: if every snapshot entry is null, no hook runs and the message
is delivered to the handler. -/
theorem sendMessage_snapshot_semantics (beh : Beh) (handler : Nat) (m : Msg)
    (st : LoopState) :
    (∀ (pre post : List (Option Nat)) (h : Nat),
      (lookupHooks st handler).reverse = pre ++ some h :: post →
      (∀ e ∈ pre, e = none ∨ ∃ h', e = some h' ∧ hookVerdict (beh.hookFn h' m) = true) →
      h ∈ (sendMessage beh handler m st).hookLog) ∧
    (∀ h', h' ∈ (sendMessage beh handler m st).hookLog →
      h' ∈ st.hookLog ∨ some h' ∈ lookupHooks st handler) ∧
    ((∀ e ∈ lookupHooks st handler, e = none) →
      (sendMessage beh handler m st).hookLog = st.hookLog ∧
      (sendMessage beh handler m st).processed = st.processed ++ [(handler, m)]) := by
  refine ⟨?_, ?_, ?_⟩
  · intro pre post h hl hpre
    have hne : (lookupHooks st handler).isEmpty = false := by
      cases hh : lookupHooks st handler with
      | nil => rw [hh] at hl; exact absurd hl.symm (by simp)
      | cons a l => rfl
    have hreach := runChain_reaches beh m h pre post st hpre
    rw [← hl] at hreach
    unfold sendMessage
    simp only [hne, Bool.false_eq_true, if_false]
    cases hr : (runChain beh m (lookupHooks st handler).reverse st).2 with
    | true =>
      simp only [if_true]
      rw [(invokeHandler_obs beh handler m _).2.1]
      exact hreach
    | false =>
      simp only [Bool.false_eq_true, if_false]
      exact hreach
  · intro h' hp
    unfold sendMessage at hp
    cases hne : (lookupHooks st handler).isEmpty with
    | true =>
      simp only [hne, if_true] at hp
      rw [(invokeHandler_obs beh handler m st).2.1] at hp
      exact Or.inl hp
    | false =>
      simp only [hne, Bool.false_eq_true, if_false] at hp
      cases hr : (runChain beh m (lookupHooks st handler).reverse st).2 with
      | true =>
        rw [hr] at hp
        simp only [if_true] at hp
        rw [(invokeHandler_obs beh handler m _).2.1] at hp
        rcases runChain_hookLog_sources beh m _ st h' hp with h1 | h1
        · exact Or.inl h1
        · exact Or.inr (List.mem_reverse.mp h1)
      | false =>
        rw [hr] at hp
        simp only [Bool.false_eq_true, if_false] at hp
        rcases runChain_hookLog_sources beh m _ st h' hp with h1 | h1
        · exact Or.inl h1
        · exact Or.inr (List.mem_reverse.mp h1)
  · intro hall
    unfold sendMessage
    cases hne : (lookupHooks st handler).isEmpty with
    | true =>
      simp only [hne, if_true]
      exact ⟨(invokeHandler_obs beh handler m st).2.1,
        (invokeHandler_obs beh handler m st).1⟩
    | false =>
      have hall' : ∀ e ∈ (lookupHooks st handler).reverse, e = none :=
        fun e he => hall e (List.mem_reverse.mp he)
      have hrc : runChain beh m (lookupHooks st handler).reverse st = (st, true) :=
        runChain_all_none beh m _ st hall'
      simp only [hne, Bool.false_eq_true, if_false]
      rw [hrc]
      simp only [if_true]
      exact ⟨(invokeHandler_obs beh handler m st).2.1,
        (invokeHandler_obs beh handler m st).1⟩

/-- Witness for C10 at a concrete input: handler 7 has hooks 1 then 2
installed (so 2 runs first); hook 2 removes hook 1 and installs hook 9
during its own invocation. Hook 1 is still invoked in the same chain
(the chain runs [2, 1]), and the freshly installed hook 9 is not. -/
theorem sendMessage_snapshot_semantics_witness :
    1 ∈ (sendMessage
        ⟨fun h _ => if h = 2 then ⟨[HookAction.remove 7 1, HookAction.install 7 9],
            HookResult.ret true⟩
          else ⟨[], HookResult.ret true⟩,
          fun _ _ => ⟨[], none⟩, fun _ _ => false⟩
        7 ⟨1, 1, false, []⟩
        { queue := [], hooks := [(7, [some 1, some 2])], loopTaskID := 0,
          nextTaskID := 1, processed := [], hookLog := [], errors := [] }).hookLog ∧
    9 ∉ (sendMessage
        ⟨fun h _ => if h = 2 then ⟨[HookAction.remove 7 1, HookAction.install 7 9],
            HookResult.ret true⟩
          else ⟨[], HookResult.ret true⟩,
          fun _ _ => ⟨[], none⟩, fun _ _ => false⟩
        7 ⟨1, 1, false, []⟩
        { queue := [], hooks := [(7, [some 1, some 2])], loopTaskID := 0,
          nextTaskID := 1, processed := [], hookLog := [], errors := [] }).hookLog ∧
    (sendMessage
        ⟨fun h _ => if h = 2 then ⟨[HookAction.remove 7 1, HookAction.install 7 9],
            HookResult.ret true⟩
          else ⟨[], HookResult.ret true⟩,
          fun _ _ => ⟨[], none⟩, fun _ _ => false⟩
        7 ⟨1, 1, false, []⟩
        { queue := [], hooks := [(7, [some 1, some 2])], loopTaskID := 0,
          nextTaskID := 1, processed := [], hookLog := [], errors := [] }).hookLog =
      [2, 1] := by
  refine ⟨?_, ?_, by decide⟩
  · exact (sendMessage_snapshot_semantics
      ⟨fun h _ => if h = 2 then ⟨[HookAction.remove 7 1, HookAction.install 7 9],
          HookResult.ret true⟩
        else ⟨[], HookResult.ret true⟩,
        fun _ _ => ⟨[], none⟩, fun _ _ => false⟩
      7 ⟨1, 1, false, []⟩
      { queue := [], hooks := [(7, [some 1, some 2])], loopTaskID := 0,
        nextTaskID := 1, processed := [], hookLog := [], errors := [] }).1
      [some 2] [] 1 (by decide)
      (by
        intro e he
        right
        exact ⟨2, by simpa using he, by decide⟩)
  · intro h9
    rcases (sendMessage_snapshot_semantics
      ⟨fun h _ => if h = 2 then ⟨[HookAction.remove 7 1, HookAction.install 7 9],
          HookResult.ret true⟩
        else ⟨[], HookResult.ret true⟩,
        fun _ _ => ⟨[], none⟩, fun _ _ => false⟩
      7 ⟨1, 1, false, []⟩
      { queue := [], hooks := [(7, [some 1, some 2])], loopTaskID := 0,
        nextTaskID := 1, processed := [], hookLog := [], errors := [] }).2.1
      9 h9 with h | h
    · exact absurd h (by decide)
    · exact absurd h (by decide)

end Loop

/-! ## C6: postMessage conflation -/

namespace Loop

theorem conflateScan_absorbs_first (confl : Msg → Msg → Bool) (handler : Nat) (m : Msg) :
    ∀ (q1 : List QEntry) (pm : Msg) (q2 : List QEntry),
      (∀ e ∈ q1, absorbs confl handler m e = false) →
      pm.type = m.type → pm.isConflatable = true → confl pm m = true →
      conflateScan confl handler m (q1 ++ QEntry.posted (some handler) (some pm) :: q2) =
        some (q1 ++ QEntry.posted (some handler)
          (some { pm with merged := pm.merged ++ [m.id] }) :: q2) := by
  intro q1
  induction q1 with
  | nil =>
    intro pm q2 _ ht hc hcf
    simp [conflateScan, ht, hc, hcf]
  | cons e q1 ih =>
    intro pm q2 hq1 ht hc hcf
    have he : absorbs confl handler m e = false := hq1 e (List.mem_cons_self e q1)
    have hrest := ih pm q2 (fun x hx => hq1 x (List.mem_cons_of_mem e hx)) ht hc hcf
    cases e with
    | sentinel => simp [conflateScan, hrest]
    | posted oh om =>
      cases oh with
      | none => simp [conflateScan, hrest]
      | some h' =>
        cases om with
        | none => simp [conflateScan, hrest]
        | some pm' =>
          cases hA : (h' == handler && pm'.type == m.type && pm'.isConflatable) with
          | false => simp [conflateScan, hA, hrest]
          | true =>
            have hcf' : confl pm' m = false := by
              unfold absorbs at he
              rw [Bool.and_eq_false_iff] at he
              rcases he with he | he
              · rw [show (h' == handler && pm'.type == m.type && pm'.isConflatable) =
                  false from he] at hA
                cases hA
              · exact he
            simp [conflateScan, hA, hcf', hrest]

theorem conflateScan_no_absorber (confl : Msg → Msg → Bool) (handler : Nat) (m : Msg) :
    ∀ q : List QEntry, (∀ e ∈ q, absorbs confl handler m e = false) →
      conflateScan confl handler m q = none := by
  intro q
  induction q with
  | nil => intro _; rfl
  | cons e rest ih =>
    intro hall
    have he : absorbs confl handler m e = false := hall e (List.mem_cons_self e rest)
    have hrest := ih fun x hx => hall x (List.mem_cons_of_mem e hx)
    cases e with
    | sentinel => simp [conflateScan, hrest]
    | posted oh om =>
      cases oh with
      | none => simp [conflateScan, hrest]
      | some h' =>
        cases om with
        | none => simp [conflateScan, hrest]
        | some pm' =>
          cases hA : (h' == handler && pm'.type == m.type && pm'.isConflatable) with
          | false => simp [conflateScan, hA, hrest]
          | true =>
            have hcf' : confl pm' m = false := by
              unfold absorbs at he
              rw [Bool.and_eq_false_iff] at he
              rcases he with he | he
              · rw [show (h' == handler && pm'.type == m.type && pm'.isConflatable) =
                  false from he] at hA
                cases hA
              · exact he
            simp [conflateScan, hA, hcf', hrest]

/-- C6. For every postMessage(handler, msg): a non-conflatable message
is always appended to the queue as a fresh entry; a conflatable one is
offered front to back to the entries holding a non-null message for the
same handler, of the same type and conflatable — the first such
candidate whose conflate(msg) returns true absorbs the message (the
entry records the merge, nothing is appended, and the scan stops), a
candidate returning false does not stop the scan (the hypothesis on the
entries ahead of the absorber allows failed candidates), and if no
candidate conflates, the message is appended as a fresh entry. -/
theorem postMessage_conflation (confl : Msg → Msg → Bool) (handler : Nat) (m : Msg)
    (st : LoopState) :
    (m.isConflatable = false →
      (postMessage confl handler m st).queue =
        st.queue ++ [QEntry.posted (some handler) (some m)]) ∧
    (m.isConflatable = true →
      ∀ (q1 : List QEntry) (pm : Msg) (q2 : List QEntry),
        st.queue = q1 ++ QEntry.posted (some handler) (some pm) :: q2 →
        (∀ e ∈ q1, absorbs confl handler m e = false) →
        pm.type = m.type → pm.isConflatable = true → confl pm m = true →
        (postMessage confl handler m st).queue =
          q1 ++ QEntry.posted (some handler)
            (some { pm with merged := pm.merged ++ [m.id] }) :: q2) ∧
    (m.isConflatable = true →
      (∀ e ∈ st.queue, absorbs confl handler m e = false) →
      (postMessage confl handler m st).queue =
        st.queue ++ [QEntry.posted (some handler) (some m)]) := by
  refine ⟨?_, ?_, ?_⟩
  · intro hc
    unfold postMessage
    simp only [hc, Bool.not_false, if_true]
    unfold enqueueMessage
    dsimp only
    split <;> rfl
  · intro hc q1 pm q2 hq hq1 ht hpc hcf
    unfold postMessage
    simp only [hc, Bool.not_true, Bool.false_eq_true, if_false]
    rw [hq, conflateScan_absorbs_first confl handler m q1 pm q2 hq1 ht hpc hcf]
  · intro hc hall
    unfold postMessage
    simp only [hc, Bool.not_true, Bool.false_eq_true, if_false]
    rw [conflateScan_no_absorber confl handler m st.queue hall]
    unfold enqueueMessage
    dsimp only
    split <;> rfl

/-- Witness for C6 at a concrete input: the queue holds two conflatable
type-3 entries for handler 7 (message ids 10 and 20) and the conflate
method accepts only the entry with id 20; posting a conflatable type-3
message with id 30 passes over the first candidate (which returns false)
and is absorbed by the second, appending nothing; posting a
non-conflatable message is appended as a fresh entry. -/
theorem postMessage_conflation_witness :
    (postMessage (fun pm _ => pm.id == 20) 7 ⟨30, 3, true, []⟩
        { queue := [QEntry.posted (some 7) (some ⟨10, 3, true, []⟩),
            QEntry.posted (some 7) (some ⟨20, 3, true, []⟩)],
          hooks := [], loopTaskID := 0, nextTaskID := 1, processed := [],
          hookLog := [], errors := [] }).queue =
      [QEntry.posted (some 7) (some ⟨10, 3, true, []⟩),
        QEntry.posted (some 7) (some ⟨20, 3, true, [30]⟩)] ∧
    (postMessage (fun pm _ => pm.id == 20) 7 ⟨40, 3, false, []⟩
        { queue := [QEntry.posted (some 7) (some ⟨10, 3, true, []⟩),
            QEntry.posted (some 7) (some ⟨20, 3, true, []⟩)],
          hooks := [], loopTaskID := 0, nextTaskID := 1, processed := [],
          hookLog := [], errors := [] }).queue =
      [QEntry.posted (some 7) (some ⟨10, 3, true, []⟩),
        QEntry.posted (some 7) (some ⟨20, 3, true, []⟩),
        QEntry.posted (some 7) (some ⟨40, 3, false, []⟩)] := by
  constructor
  · have h := (postMessage_conflation (fun pm _ => pm.id == 20) 7 ⟨30, 3, true, []⟩
      { queue := [QEntry.posted (some 7) (some ⟨10, 3, true, []⟩),
          QEntry.posted (some 7) (some ⟨20, 3, true, []⟩)],
        hooks := [], loopTaskID := 0, nextTaskID := 1, processed := [],
        hookLog := [], errors := [] }).2.1
      rfl [QEntry.posted (some 7) (some ⟨10, 3, true, []⟩)] ⟨20, 3, true, []⟩ []
      (by decide) (by decide) rfl rfl (by decide)
    exact h.trans (by decide)
  · have h := (postMessage_conflation (fun pm _ => pm.id == 20) 7 ⟨40, 3, false, []⟩
      { queue := [QEntry.posted (some 7) (some ⟨10, 3, true, []⟩),
          QEntry.posted (some 7) (some ⟨20, 3, true, []⟩)],
        hooks := [], loopTaskID := 0, nextTaskID := 1, processed := [],
        hookLog := [], errors := [] }).1 rfl
    exact h.trans (by decide)

end Loop

/-! ## C2: the sentinel-bounded drain -/

namespace Loop

theorem enqueueMessage_queue_shift (h : Nat) (m : Msg) (pre : List QEntry)
    (st : LoopState) :
    enqueueMessage h m { st with queue := pre ++ st.queue } =
      { enqueueMessage h m st with queue := pre ++ (enqueueMessage h m st).queue } := by
  unfold enqueueMessage
  dsimp only
  by_cases hl : st.loopTaskID ≠ 0 <;> simp [hl, List.append_assoc]

theorem postMessage_nonconfl_queue (confl : Msg → Msg → Bool) (h : Nat) (m : Msg)
    (st : LoopState) (hm : m.isConflatable = false) :
    (postMessage confl h m st).queue = st.queue ++ [QEntry.posted (some h) (some m)] := by
  unfold postMessage
  simp only [hm, Bool.not_false, if_true]
  unfold enqueueMessage
  dsimp only
  split <;> rfl

theorem postMessage_queue_shift (confl : Msg → Msg → Bool) (h : Nat) (m : Msg)
    (hm : m.isConflatable = false) (pre : List QEntry) (st : LoopState) :
    postMessage confl h m { st with queue := pre ++ st.queue } =
      { postMessage confl h m st with
        queue := pre ++ (postMessage confl h m st).queue } := by
  unfold postMessage
  simp only [hm, Bool.not_false, if_true]
  exact enqueueMessage_queue_shift h m pre st

theorem postsFold_queue_shift (confl : Msg → Msg → Bool) :
    ∀ ps : List (Nat × Msg), (∀ p ∈ ps, p.2.isConflatable = false) →
      ∀ (pre : List QEntry) (st : LoopState),
        ps.foldl (fun s p => postMessage confl p.1 p.2 s)
            { st with queue := pre ++ st.queue } =
          { ps.foldl (fun s p => postMessage confl p.1 p.2 s) st with
            queue := pre ++ (ps.foldl (fun s p => postMessage confl p.1 p.2 s) st).queue } := by
  intro ps
  induction ps with
  | nil => intro _ pre st; rfl
  | cons p rest ih =>
    intro hnc pre st
    have hp : p.2.isConflatable = false := hnc p (List.mem_cons_self p rest)
    show rest.foldl (fun s p => postMessage confl p.1 p.2 s)
        (postMessage confl p.1 p.2 { st with queue := pre ++ st.queue }) = _
    rw [postMessage_queue_shift confl p.1 p.2 hp pre st]
    exact ih (fun x hx => hnc x (List.mem_cons_of_mem p hx)) pre
      (postMessage confl p.1 p.2 st)

theorem installMessageHook_queue_shift (st : LoopState) (h k : Nat) (pre : List QEntry) :
    installMessageHook { st with queue := pre ++ st.queue } h k =
      { installMessageHook st h k with
        queue := pre ++ (installMessageHook st h k).queue } := by
  by_cases hc : some k ∈ lookupL st.hooks h [] <;>
    simp [installMessageHook, lookupHooks, hc]

theorem removeMessageHook_queue_shift (st : LoopState) (h k : Nat) (pre : List QEntry) :
    removeMessageHook { st with queue := pre ++ st.queue } h k =
      { removeMessageHook st h k with
        queue := pre ++ (removeMessageHook st h k).queue } := by
  cases hf : (lookupL st.hooks h []).findIdx? (· == some k) with
  | none => simp [removeMessageHook, lookupHooks, hf]
  | some i => simp [removeMessageHook, lookupHooks, hf]

theorem applyHookActions_queue_shift :
    ∀ (acts : List HookAction) (pre : List QEntry) (st : LoopState),
      applyHookActions { st with queue := pre ++ st.queue } acts =
        { applyHookActions st acts with
          queue := pre ++ (applyHookActions st acts).queue } := by
  intro acts
  induction acts with
  | nil => intro pre st; rfl
  | cons a rest ih =>
    intro pre st
    cases a with
    | install h k =>
      show applyHookActions (installMessageHook { st with queue := pre ++ st.queue } h k)
        rest = _
      rw [installMessageHook_queue_shift st h k pre]
      exact ih pre (installMessageHook st h k)
    | remove h k =>
      show applyHookActions (removeMessageHook { st with queue := pre ++ st.queue } h k)
        rest = _
      rw [removeMessageHook_queue_shift st h k pre]
      exact ih pre (removeMessageHook st h k)

theorem invokeHook_queue_shift (beh : Beh) (h : Nat) (m : Msg) (pre : List QEntry)
    (st : LoopState) :
    invokeHook beh h m { st with queue := pre ++ st.queue } =
      ({ (invokeHook beh h m st).1 with
          queue := pre ++ (invokeHook beh h m st).1.queue },
        (invokeHook beh h m st).2) := by
  unfold invokeHook
  dsimp only
  rw [show ({ st with queue := pre ++ st.queue, hookLog := st.hookLog ++ [h] } : LoopState) =
      { ({ st with hookLog := st.hookLog ++ [h] } : LoopState) with
        queue := pre ++ ({ st with hookLog := st.hookLog ++ [h] } : LoopState).queue }
    from rfl]
  rw [applyHookActions_queue_shift (beh.hookFn h m).actions pre
    { st with hookLog := st.hookLog ++ [h] }]
  cases hr : (beh.hookFn h m).result <;> rfl

theorem runChain_queue_shift (beh : Beh) (m : Msg) :
    ∀ (chain : List (Option Nat)) (pre : List QEntry) (st : LoopState),
      runChain beh m chain { st with queue := pre ++ st.queue } =
        ({ (runChain beh m chain st).1 with
            queue := pre ++ (runChain beh m chain st).1.queue },
          (runChain beh m chain st).2) := by
  intro chain
  induction chain with
  | nil => intro pre st; rfl
  | cons e rest ih =>
    intro pre st
    cases e with
    | none => exact ih pre st
    | some h =>
      show (let r := invokeHook beh h m { st with queue := pre ++ st.queue }
          if r.2 then runChain beh m rest r.1 else (r.1, false)) = _
      rw [invokeHook_queue_shift beh h m pre st]
      dsimp only
      cases hr : (invokeHook beh h m st).2 with
      | false =>
        simp only [Bool.false_eq_true, if_false]
        show (({ (invokeHook beh h m st).1 with
            queue := pre ++ (invokeHook beh h m st).1.queue }, false) :
              LoopState × Bool) = _
        have hstep : runChain beh m (some h :: rest) st =
            ((invokeHook beh h m st).1, false) := by
          show (if (invokeHook beh h m st).2 = true then
              runChain beh m rest (invokeHook beh h m st).1
            else ((invokeHook beh h m st).1, false)) = _
          rw [hr]
          simp
        rw [hstep]
      | true =>
        simp only [if_true]
        have hstep : runChain beh m (some h :: rest) st =
            runChain beh m rest (invokeHook beh h m st).1 := by
          show (if (invokeHook beh h m st).2 = true then
              runChain beh m rest (invokeHook beh h m st).1
            else ((invokeHook beh h m st).1, false)) = _
          rw [hr]
          simp
        rw [hstep]
        exact ih pre (invokeHook beh h m st).1

theorem invokeHandler_queue_shift (beh : Beh) (hNC : nonConflPosts beh) (handler : Nat)
    (m : Msg) (pre : List QEntry) (st : LoopState) :
    invokeHandler beh handler m { st with queue := pre ++ st.queue } =
      { invokeHandler beh handler m st with
        queue := pre ++ (invokeHandler beh handler m st).queue } := by
  unfold invokeHandler
  dsimp only
  rw [postsFold_queue_shift beh.confl (beh.handlerFn handler m).posts (hNC handler m) pre
    { st with processed := st.processed ++ [(handler, m)] }]
  cases ht : (beh.handlerFn handler m).throwTok <;> rfl

theorem sendMessage_queue_shift (beh : Beh) (hNC : nonConflPosts beh) (handler : Nat)
    (m : Msg) (pre : List QEntry) (st : LoopState) :
    sendMessage beh handler m { st with queue := pre ++ st.queue } =
      { sendMessage beh handler m st with
        queue := pre ++ (sendMessage beh handler m st).queue } := by
  unfold sendMessage
  dsimp only
  rw [show lookupHooks { st with queue := pre ++ st.queue } handler =
      lookupHooks st handler from rfl]
  cases hne : (lookupHooks st handler).isEmpty with
  | true =>
    simp only [hne, if_true]
    exact invokeHandler_queue_shift beh hNC handler m pre st
  | false =>
    simp only [hne, Bool.false_eq_true, if_false]
    rw [runChain_queue_shift beh m (lookupHooks st handler).reverse pre st]
    dsimp only
    cases hr : (runChain beh m (lookupHooks st handler).reverse st).2 with
    | false => simp only [Bool.false_eq_true, if_false]
    | true =>
      simp only [if_true]
      exact invokeHandler_queue_shift beh hNC handler m pre
        (runChain beh m (lookupHooks st handler).reverse st).1

theorem drainLoop_cons_sentinel (beh : Beh) (fuel : Nat) (st : LoopState)
    (rest : List QEntry) (hq : st.queue = QEntry.sentinel :: rest) :
    drainLoop beh (fuel + 1) st = { st with queue := rest } := by
  cases st
  dsimp only at hq
  subst hq
  rfl

theorem drainLoop_cons_dispatch (beh : Beh) (fuel : Nat) (h : Nat) (m : Msg)
    (rest : List QEntry) (st : LoopState)
    (hq : st.queue = QEntry.posted (some h) (some m) :: rest) :
    drainLoop beh (fuel + 1) st =
      drainLoop beh fuel (sendMessage beh h m { st with queue := rest }) := by
  cases st
  dsimp only at hq
  subst hq
  rfl

theorem drainLoop_cons_skip (beh : Beh) (fuel : Nat) (oh : Option Nat) (om : Option Msg)
    (rest : List QEntry) (st : LoopState)
    (hq : st.queue = QEntry.posted oh om :: rest)
    (hnull : oh = none ∨ om = none) :
    drainLoop beh (fuel + 1) st = drainLoop beh fuel { st with queue := rest } := by
  cases st
  dsimp only at hq
  subst hq
  rcases hnull with h | h
  · subst h
    cases om <;> rfl
  · subst h
    cases oh <;> rfl

theorem drainLoop_processes (beh : Beh) (hNC : nonConflPosts beh) :
    ∀ (pre suf : List QEntry) (st : LoopState) (fuel : Nat),
      st.queue = pre ++ QEntry.sentinel :: suf →
      QEntry.sentinel ∉ pre →
      pre.length + 1 ≤ fuel →
      drainLoop beh fuel st = processEntries beh pre { st with queue := suf } := by
  intro pre
  induction pre with
  | nil =>
    intro suf st fuel hq hns hf
    cases fuel with
    | zero => omega
    | succ f =>
      rw [drainLoop_cons_sentinel beh f st suf (by simpa using hq)]
      rfl
  | cons e pre ih =>
    intro suf st fuel hq hns hf
    have hns' : QEntry.sentinel ∉ pre := fun hx => hns (List.mem_cons_of_mem _ hx)
    cases fuel with
    | zero => simp at hf
    | succ f =>
      have hf' : pre.length + 1 ≤ f := by
        simp only [List.length_cons] at hf
        omega
      have hq' : st.queue = e :: (pre ++ QEntry.sentinel :: suf) := by
        rw [hq, List.cons_append]
      cases e with
      | sentinel => exact absurd (List.mem_cons_self _ _) hns
      | posted oh om =>
        cases oh with
        | none =>
          rw [drainLoop_cons_skip beh f none om _ st hq' (Or.inl rfl)]
          rw [ih suf { st with queue := pre ++ QEntry.sentinel :: suf } f rfl hns' hf']
          cases om <;> rfl
        | some hh =>
          cases om with
          | none =>
            rw [drainLoop_cons_skip beh f (some hh) none _ st hq' (Or.inr rfl)]
            rw [ih suf { st with queue := pre ++ QEntry.sentinel :: suf } f rfl hns' hf']
            rfl
          | some mm =>
            rw [drainLoop_cons_dispatch beh f hh mm _ st hq']
            have halign : ({ st with queue := pre ++ QEntry.sentinel :: suf } : LoopState) =
                { ({ st with queue := suf } : LoopState) with
                  queue := (pre ++ [QEntry.sentinel]) ++
                    ({ st with queue := suf } : LoopState).queue } := by
              simp
            rw [halign,
              sendMessage_queue_shift beh hNC hh mm (pre ++ [QEntry.sentinel])
                { st with queue := suf }]
            rw [ih (sendMessage beh hh mm { st with queue := suf }).queue
              { sendMessage beh hh mm { st with queue := suf } with
                queue := (pre ++ [QEntry.sentinel]) ++
                  (sendMessage beh hh mm { st with queue := suf }).queue }
              f (by simp) hns' hf']
            rfl

/-- One drain of the message loop, as an equation: it clears the pending
task id and then processes exactly the entries present when the drain
started, in order, against a state whose queue starts empty — so
everything the handlers post during the drain is what remains queued for
the next cycle. -/
theorem runMessageLoop_eq_processEntries (beh : Beh) (st : LoopState)
    (hNC : nonConflPosts beh) (hs : QEntry.sentinel ∉ st.queue) :
    runMessageLoop beh st =
      processEntries beh st.queue { st with queue := [], loopTaskID := 0 } := by
  cases st with
  | mk q hooks lt nt pr hlog er =>
    dsimp only at hs
    unfold runMessageLoop
    dsimp only
    cases q with
    | nil => rfl
    | cons e rest =>
      rw [if_neg (by simp)]
      rw [drainLoop_processes beh hNC (e :: rest) []
        { queue := (e :: rest) ++ [QEntry.sentinel], hooks := hooks, loopTaskID := 0,
          nextTaskID := nt, processed := pr, hookLog := hlog, errors := er }
        ((e :: rest).length + 1) rfl hs (Nat.le_refl _)]

/-- C2 as stated is false on the code in one corner: a conflatable
message posted by a handler during the drain can conflate into a
not-yet-processed entry still ahead in the queue, in which case nothing
is appended and its payload is delivered merged within the same drain
rather than being left for the next cycle. Concretely: the queue holds a
message for handler 1 and a conflatable type-6 message for handler 2;
while being processed, handler 1 posts a conflatable type-6 message
(id 102) to handler 2 whose conflate accepts it; after the drain the
queue is empty — the posted message was not left for the next cycle —
and handler 2 received the merged message in this same drain. -/
theorem runMessageLoop_conflated_during_drain :
    (runMessageLoop
        ⟨fun _ _ => ⟨[], HookResult.ret true⟩,
          fun h _ => if h = 1 then ⟨[(2, ⟨102, 6, true, []⟩)], none⟩ else ⟨[], none⟩,
          fun _ _ => true⟩
        { queue := [QEntry.posted (some 1) (some ⟨100, 5, false, []⟩),
            QEntry.posted (some 2) (some ⟨101, 6, true, []⟩)],
          hooks := [], loopTaskID := 3, nextTaskID := 4, processed := [],
          hookLog := [], errors := [] }).queue = [] ∧
    (runMessageLoop
        ⟨fun _ _ => ⟨[], HookResult.ret true⟩,
          fun h _ => if h = 1 then ⟨[(2, ⟨102, 6, true, []⟩)], none⟩ else ⟨[], none⟩,
          fun _ _ => true⟩
        { queue := [QEntry.posted (some 1) (some ⟨100, 5, false, []⟩),
            QEntry.posted (some 2) (some ⟨101, 6, true, []⟩)],
          hooks := [], loopTaskID := 3, nextTaskID := 4, processed := [],
          hookLog := [], errors := [] }).processed =
      [(1, ⟨100, 5, false, []⟩), (2, ⟨101, 6, true, [102]⟩)] := by
  decide

/-- C2, amended. One drain pass of runMessageLoop processes exactly the
queue entries present when the drain started: the sentinel
(distinguished by identity from entries cleared to null by clearData)
bounds the pass; the loop pops from the front until the sentinel,
delivers each popped entry whose handler and msg are both non-null via
the sendMessage path, and skips entries with either field null; the
drain equals the reference processor that walks the pre-drain entries in
order starting from an empty queue, so any message posted during the
drain that takes the append path — the hypothesis here: handlers post
non-conflatable messages — is appended after the sentinel and left in
the queue for the next cycle (a conflatable message posted during the
drain may instead be absorbed into a not-yet-processed entry, as the
counterexample shows). -/
theorem runMessageLoop_drains_snapshot (beh : Beh) (st : LoopState)
    (hNC : nonConflPosts beh) (hs : QEntry.sentinel ∉ st.queue) :
    runMessageLoop beh st =
      processEntries beh st.queue { st with queue := [], loopTaskID := 0 } :=
  runMessageLoop_eq_processEntries beh st hNC hs

/-- Witness for C2 at a concrete input: a queue holding a message for
handler 1, a cleared entry, and a message for handler 2; handler 1 posts
a new non-conflatable message to handler 3 while being processed. The
drain delivers exactly the two live pre-drain entries in order, skips
the cleared entry, and leaves the message posted during the drain in the
queue for the next cycle. -/
theorem runMessageLoop_drains_snapshot_witness :
    (runMessageLoop
        ⟨fun _ _ => ⟨[], HookResult.ret true⟩,
          fun h _ => if h = 1 then ⟨[(3, ⟨102, 7, false, []⟩)], none⟩ else ⟨[], none⟩,
          fun _ _ => false⟩
        { queue := [QEntry.posted (some 1) (some ⟨100, 5, false, []⟩),
            QEntry.posted none none,
            QEntry.posted (some 2) (some ⟨101, 6, false, []⟩)],
          hooks := [], loopTaskID := 3, nextTaskID := 4, processed := [],
          hookLog := [], errors := [] } =
      processEntries
        ⟨fun _ _ => ⟨[], HookResult.ret true⟩,
          fun h _ => if h = 1 then ⟨[(3, ⟨102, 7, false, []⟩)], none⟩ else ⟨[], none⟩,
          fun _ _ => false⟩
        [QEntry.posted (some 1) (some ⟨100, 5, false, []⟩),
          QEntry.posted none none,
          QEntry.posted (some 2) (some ⟨101, 6, false, []⟩)]
        { queue := [], hooks := [], loopTaskID := 0, nextTaskID := 4, processed := [],
          hookLog := [], errors := [] }) ∧
    (runMessageLoop
        ⟨fun _ _ => ⟨[], HookResult.ret true⟩,
          fun h _ => if h = 1 then ⟨[(3, ⟨102, 7, false, []⟩)], none⟩ else ⟨[], none⟩,
          fun _ _ => false⟩
        { queue := [QEntry.posted (some 1) (some ⟨100, 5, false, []⟩),
            QEntry.posted none none,
            QEntry.posted (some 2) (some ⟨101, 6, false, []⟩)],
          hooks := [], loopTaskID := 3, nextTaskID := 4, processed := [],
          hookLog := [], errors := [] }).processed =
      [(1, ⟨100, 5, false, []⟩), (2, ⟨101, 6, false, []⟩)] ∧
    (runMessageLoop
        ⟨fun _ _ => ⟨[], HookResult.ret true⟩,
          fun h _ => if h = 1 then ⟨[(3, ⟨102, 7, false, []⟩)], none⟩ else ⟨[], none⟩,
          fun _ _ => false⟩
        { queue := [QEntry.posted (some 1) (some ⟨100, 5, false, []⟩),
            QEntry.posted none none,
            QEntry.posted (some 2) (some ⟨101, 6, false, []⟩)],
          hooks := [], loopTaskID := 3, nextTaskID := 4, processed := [],
          hookLog := [], errors := [] }).queue =
      [QEntry.posted (some 3) (some ⟨102, 7, false, []⟩)] := by
  refine ⟨?_, by decide, by decide⟩
  exact runMessageLoop_drains_snapshot
    ⟨fun _ _ => ⟨[], HookResult.ret true⟩,
      fun h _ => if h = 1 then ⟨[(3, ⟨102, 7, false, []⟩)], none⟩ else ⟨[], none⟩,
      fun _ _ => false⟩
    { queue := [QEntry.posted (some 1) (some ⟨100, 5, false, []⟩),
        QEntry.posted none none,
        QEntry.posted (some 2) (some ⟨101, 6, false, []⟩)],
      hooks := [], loopTaskID := 3, nextTaskID := 4, processed := [],
      hookLog := [], errors := [] }
    (by
      intro h m p hp
      by_cases hh : h = 1
      · simp [hh] at hp
        rw [hp]
      · simp [hh] at hp)
    (by decide)

end Loop

/-! ## C5: the queue is a single global FIFO -/

namespace Loop

theorem postAll_append_nonconfl (confl : Msg → Msg → Bool) :
    ∀ ps : List (Nat × Msg), (∀ p ∈ ps, p.2.isConflatable = false) →
      ∀ st : LoopState,
        (postAll confl ps st).queue =
          st.queue ++ ps.map (fun p => QEntry.posted (some p.1) (some p.2)) ∧
        (postAll confl ps st).processed = st.processed ∧
        (postAll confl ps st).hooks = st.hooks := by
  intro ps
  induction ps with
  | nil => intro _ st; exact ⟨by simp [postAll], rfl, rfl⟩
  | cons p rest ih =>
    intro hnc st
    have hp : p.2.isConflatable = false := hnc p (List.mem_cons_self p rest)
    obtain ⟨h1, h2, h3⟩ := ih (fun x hx => hnc x (List.mem_cons_of_mem p hx))
      (postMessage confl p.1 p.2 st)
    obtain ⟨g1, g2, g3, g4⟩ := postMessage_obs confl p.1 p.2 st
    refine ⟨?_, ?_, ?_⟩
    · show (postAll confl rest (postMessage confl p.1 p.2 st)).queue = _
      rw [h1, postMessage_nonconfl_queue confl p.1 p.2 st hp]
      simp
    · show (postAll confl rest (postMessage confl p.1 p.2 st)).processed = _
      rw [h2, g2]
    · show (postAll confl rest (postMessage confl p.1 p.2 st)).hooks = _
      rw [h3, g4]

theorem processEntries_processed_no_hooks (beh : Beh) :
    ∀ (ps : List (Nat × Msg)) (st : LoopState),
      (∀ p ∈ ps, lookupHooks st p.1 = []) →
      (processEntries beh (ps.map fun p => QEntry.posted (some p.1) (some p.2))
          st).processed =
        st.processed ++ ps := by
  intro ps
  induction ps with
  | nil => intro st _; simp [processEntries]
  | cons p rest ih =>
    intro st hhk
    have hh : lookupHooks st p.1 = [] := hhk p (List.mem_cons_self p rest)
    have hsm : sendMessage beh p.1 p.2 st = invokeHandler beh p.1 p.2 st := by
      unfold sendMessage
      rw [hh]
      rfl
    show (processEntries beh ((rest.map fun p => QEntry.posted (some p.1) (some p.2)))
        (sendMessage beh p.1 p.2 st)).processed = _
    rw [hsm]
    rw [ih (invokeHandler beh p.1 p.2 st) (fun x hx => by
      show lookupL (invokeHandler beh p.1 p.2 st).hooks x.1 [] = []
      rw [(invokeHandler_obs beh p.1 p.2 st).2.2]
      exact hhk x (List.mem_cons_of_mem p hx))]
    rw [(invokeHandler_obs beh p.1 p.2 st).1]
    simp

/-- C5. The posted-message queue is a single global FIFO shared by all
handlers: posting any sequence of non-conflatable messages to arbitrary
hook-free handlers from an empty queue and then running one drain
delivers them in exactly the order they were posted, interleaved across
handlers, and each individual handler observes its own messages as the
subsequence filtered from that global order. -/
theorem postAll_drain_global_fifo (beh : Beh) (ps : List (Nat × Msg)) (st : LoopState)
    (hq : st.queue = []) (hpr : st.processed = [])
    (hps : ∀ p ∈ ps, p.2.isConflatable = false)
    (hhk : ∀ p ∈ ps, lookupHooks st p.1 = [])
    (hNC : nonConflPosts beh) :
    (runMessageLoop beh (postAll beh.confl ps st)).processed = ps ∧
    ∀ h, (runMessageLoop beh (postAll beh.confl ps st)).processed.filter
        (fun q => q.1 == h) =
      ps.filter (fun q => q.1 == h) := by
  obtain ⟨hq1, hq2, hq3⟩ := postAll_append_nonconfl beh.confl ps hps st
  have hqueue : (postAll beh.confl ps st).queue =
      ps.map (fun p => QEntry.posted (some p.1) (some p.2)) := by
    rw [hq1, hq]
    simp
  have hsent : QEntry.sentinel ∉ (postAll beh.confl ps st).queue := by
    rw [hqueue]
    intro hx
    rcases List.mem_map.mp hx with ⟨p, _, hpe⟩
    cases hpe
  have hrun := runMessageLoop_eq_processEntries beh (postAll beh.confl ps st) hNC hsent
  have hSproc : ({ postAll beh.confl ps st with
      queue := ([] : List QEntry)
      loopTaskID := 0 }).processed = [] := by
    show (postAll beh.confl ps st).processed = []
    rw [hq2, hpr]
  have hproc := processEntries_processed_no_hooks beh ps
    { postAll beh.confl ps st with
      queue := ([] : List QEntry)
      loopTaskID := 0 }
    (fun p hp => by
      show lookupL (postAll beh.confl ps st).hooks p.1 [] = []
      rw [hq3]
      exact hhk p hp)
  have hmain : (runMessageLoop beh (postAll beh.confl ps st)).processed = ps := by
    rw [hrun, hqueue, hproc, hSproc]
    simp
  exact ⟨hmain, fun h => by rw [hmain]⟩

/-- Witness for C5 at the specification's concrete scenario: posts
post(h3,'one'); post(h1,'two'); post(h2,'three'); post(h1,'A');
post(h2,'B'); post(h3,'C') (types 1..6 encode the six payloads), then
one drain: the process-wide delivery order is exactly the post order and
handler 1 individually observes 'two' then 'A'. -/
theorem postAll_drain_global_fifo_witness :
    (runMessageLoop
        ⟨fun _ _ => ⟨[], HookResult.ret true⟩, fun _ _ => ⟨[], none⟩, fun _ _ => false⟩
        (postAll (fun _ _ => false)
          [(3, ⟨1, 1, false, []⟩), (1, ⟨2, 2, false, []⟩), (2, ⟨3, 3, false, []⟩),
            (1, ⟨4, 4, false, []⟩), (2, ⟨5, 5, false, []⟩), (3, ⟨6, 6, false, []⟩)]
          { queue := [], hooks := [], loopTaskID := 0, nextTaskID := 1,
            processed := [], hookLog := [], errors := [] })).processed =
      [(3, ⟨1, 1, false, []⟩), (1, ⟨2, 2, false, []⟩), (2, ⟨3, 3, false, []⟩),
        (1, ⟨4, 4, false, []⟩), (2, ⟨5, 5, false, []⟩), (3, ⟨6, 6, false, []⟩)] ∧
    (runMessageLoop
        ⟨fun _ _ => ⟨[], HookResult.ret true⟩, fun _ _ => ⟨[], none⟩, fun _ _ => false⟩
        (postAll (fun _ _ => false)
          [(3, ⟨1, 1, false, []⟩), (1, ⟨2, 2, false, []⟩), (2, ⟨3, 3, false, []⟩),
            (1, ⟨4, 4, false, []⟩), (2, ⟨5, 5, false, []⟩), (3, ⟨6, 6, false, []⟩)]
          { queue := [], hooks := [], loopTaskID := 0, nextTaskID := 1,
            processed := [], hookLog := [], errors := [] })).processed.filter
        (fun q => q.1 == 1) =
      [(1, ⟨2, 2, false, []⟩), (1, ⟨4, 4, false, []⟩)] := by
  obtain ⟨h1, h2⟩ := postAll_drain_global_fifo
    ⟨fun _ _ => ⟨[], HookResult.ret true⟩, fun _ _ => ⟨[], none⟩, fun _ _ => false⟩
    [(3, ⟨1, 1, false, []⟩), (1, ⟨2, 2, false, []⟩), (2, ⟨3, 3, false, []⟩),
      (1, ⟨4, 4, false, []⟩), (2, ⟨5, 5, false, []⟩), (3, ⟨6, 6, false, []⟩)]
    { queue := [], hooks := [], loopTaskID := 0, nextTaskID := 1,
      processed := [], hookLog := [], errors := [] }
    rfl rfl (by decide) (by decide)
    (by intro h m p hp; cases hp)
  exact ⟨h1, by rw [h2 1]; decide⟩

end Loop

/-! ## Association-list lemmas -/

theorem lookupL_setL_self {α : Type} (m : List (Nat × α)) (k : Nat) (v : α) (d : α) :
    lookupL (setL m k v) k d = v := by
  induction m with
  | nil => simp [setL, lookupL]
  | cons p rest ih =>
    by_cases h : p.1 = k
    · simp [setL, h, lookupL]
    · simp [setL, h, lookupL, ih]

theorem lookupL_setL_ne {α : Type} (m : List (Nat × α)) (k k' : Nat) (v : α) (d : α)
    (h : k' ≠ k) : lookupL (setL m k v) k' d = lookupL m k' d := by
  induction m with
  | nil => simp [setL, lookupL, if_neg (Ne.symm h)]
  | cons p rest ih =>
    by_cases hp : p.1 = k
    · rw [show setL (p :: rest) k v = (k, v) :: rest by simp [setL, hp]]
      have hpk' : p.1 ≠ k' := by rw [hp]; exact Ne.symm h
      simp [lookupL, if_neg (Ne.symm h), if_neg hpk', hp]
    · simp only [setL, hp, if_false]
      by_cases hp' : p.1 = k'
      · simp [lookupL, hp']
      · simp [lookupL, hp', ih]

/-! ## C7: connect — duplicate suppression and shared append -/

namespace Sig

/-- C7. For every connect(sender, signal, slot, context?): if a live
connection already matches (signal, slot, context) exactly, connect
returns false and leaves the state — hence both indices — unchanged, so
a subsequent emit delivers exactly as it would have before the call;
otherwise it returns true and appends one connection object to the heap,
recording the same connection id (the same object, not a copy) at the
end of the sender's receiver list and of the computed receiver's sender
list, where the receiver is the context if provided and the slot
otherwise. -/
theorem connect_dedup_or_shared_append (st : SigState) (sg : SignalObj) (slot : Obj)
    (ctx : Option Obj) :
    (∀ c, findConnection st.heap (lookupL st.receiversFor sg.sender []) sg.id slot ctx =
        some c →
      connect st sg slot ctx = (false, st) ∧
      ∀ beh args, emit beh sg args (connect st sg slot ctx).2 = emit beh sg args st) ∧
    (findConnection st.heap (lookupL st.receiversFor sg.sender []) sg.id slot ctx = none →
      (connect st sg slot ctx).1 = true ∧
      (connect st sg slot ctx).2.heap = st.heap ++ [⟨some sg.id, slot, ctx⟩] ∧
      lookupL (connect st sg slot ctx).2.receiversFor sg.sender [] =
        lookupL st.receiversFor sg.sender [] ++ [st.heap.length] ∧
      lookupL (connect st sg slot ctx).2.sendersFor (ctx.getD slot) [] =
        lookupL st.sendersFor (ctx.getD slot) [] ++ [st.heap.length]) := by
  constructor
  · intro c hfind
    have hc : connect st sg slot ctx = (false, st) := by
      unfold connect
      simp only [hfind]
    exact ⟨hc, fun beh args => by rw [hc]⟩
  · intro hfind
    unfold connect
    simp only [hfind]
    exact ⟨trivial, trivial, lookupL_setL_self _ _ _ _, lookupL_setL_self _ _ _ _⟩

/-- Witness for C7 at a concrete input: from the empty registry,
connecting slot 5 to signal 10 of sender 0 succeeds and records the same
connection id 0 in both indices; repeating the identical connect returns
false and leaves the state unchanged. -/
theorem connect_dedup_or_shared_append_witness :
    ((connect ⟨[], [], []⟩ ⟨10, 0⟩ 5 none).1 = true ∧
      (connect ⟨[], [], []⟩ ⟨10, 0⟩ 5 none).2.heap = [⟨some 10, 5, none⟩] ∧
      lookupL (connect ⟨[], [], []⟩ ⟨10, 0⟩ 5 none).2.receiversFor 0 [] = [0] ∧
      lookupL (connect ⟨[], [], []⟩ ⟨10, 0⟩ 5 none).2.sendersFor 5 [] = [0]) ∧
    connect (connect ⟨[], [], []⟩ ⟨10, 0⟩ 5 none).2 ⟨10, 0⟩ 5 none =
      (false, (connect ⟨[], [], []⟩ ⟨10, 0⟩ 5 none).2) := by
  constructor
  · obtain ⟨h1, h2, h3, h4⟩ :=
      (connect_dedup_or_shared_append ⟨[], [], []⟩ ⟨10, 0⟩ 5 none).2 (by decide)
    exact ⟨h1, by simpa using h2, by simp [lookupL], by simp [lookupL, Option.getD]⟩
  · exact ((connect_dedup_or_shared_append
      (connect ⟨[], [], []⟩ ⟨10, 0⟩ 5 none).2 ⟨10, 0⟩ 5 none).1 0 (by decide)).1

end Sig

/-! ## C1: emission order and exception isolation -/

namespace Sig

theorem runActions_pure (st : SigState) (acts : List SlotAction)
    (h : acts.all pureAct = true) : runActions st acts = (st, thrownOf acts) := by
  induction acts with
  | nil => rfl
  | cons a rest ih =>
    cases a with
    | throws e => rfl
    | connects sg s c => simp [pureAct] at h
    | disconnects sg s c => simp [pureAct] at h

theorem invokeSlot_pure (beh : Behavior) (args : Nat) (cid : Nat) (conn : Connection)
    (es : EmitState) (h : (beh conn.slot).all pureAct = true) :
    invokeSlot beh args cid conn es =
      { es with
        invoked := es.invoked ++ [(cid, conn.slot)]
        errors := es.errors ++ (thrownOf (beh conn.slot)).toList } := by
  unfold invokeSlot
  dsimp only
  rw [runActions_pure es.sig _ h]
  cases hth : thrownOf (beh conn.slot) <;> simp [hth]

theorem emitStep_none (beh : Behavior) (sig : SignalObj) (args : Nat) (k : Nat)
    (es : EmitState)
    (hk : (lookupL es.sig.receiversFor sig.sender [])[k]? = none) :
    emitStep beh sig args k es = es := by
  unfold emitStep
  simp [hk]

theorem emitStep_skip (beh : Behavior) (sig : SignalObj) (args : Nat) (k : Nat)
    (es : EmitState) (cid : Nat)
    (hk : (lookupL es.sig.receiversFor sig.sender [])[k]? = some cid)
    (hl : liveMatch es.sig sig.id cid = false) :
    emitStep beh sig args k es = es := by
  unfold emitStep
  simp [hk, hl]

theorem emitStep_invoke (beh : Behavior) (sig : SignalObj) (args : Nat) (k : Nat)
    (es : EmitState) (cid : Nat)
    (hk : (lookupL es.sig.receiversFor sig.sender [])[k]? = some cid)
    (hl : liveMatch es.sig sig.id cid = true) :
    emitStep beh sig args k es = invokeSlot beh args cid (connAt es.sig cid) es := by
  unfold emitStep
  simp [hk, hl]

theorem emitSteps_pure (beh : Behavior) (sig : SignalObj) (args : Nat)
    (hb : pureBeh beh) :
    ∀ fuel k es,
      emitSteps beh sig args k fuel es =
        { es with
          invoked := es.invoked ++
            ((((lookupL es.sig.receiversFor sig.sender []).drop k).take fuel).filter
                (fun cid => liveMatch es.sig sig.id cid)).map
              (fun cid => (cid, (connAt es.sig cid).slot))
          errors := es.errors ++
            ((((lookupL es.sig.receiversFor sig.sender []).drop k).take fuel).filter
                (fun cid => liveMatch es.sig sig.id cid)).filterMap
              (fun cid => thrownOf (beh (connAt es.sig cid).slot)) } := by
  intro fuel
  induction fuel with
  | zero => intro k es; simp [emitSteps]
  | succ fuel ih =>
    intro k es
    rw [emitSteps]
    cases hk : (lookupL es.sig.receiversFor sig.sender [])[k]? with
    | none =>
      have hlen : (lookupL es.sig.receiversFor sig.sender []).length ≤ k :=
        List.getElem?_eq_none_iff.mp hk
      have hd1 : (lookupL es.sig.receiversFor sig.sender []).drop k = [] :=
        List.drop_eq_nil_of_le hlen
      have hd2 : (lookupL es.sig.receiversFor sig.sender []).drop (k + 1) = [] :=
        List.drop_eq_nil_of_le (Nat.le_succ_of_le hlen)
      rw [emitStep_none beh sig args k es hk]
      rw [ih (k + 1) es]
      simp [hd1, hd2]
    | some cid =>
      have hklt : k < (lookupL es.sig.receiversFor sig.sender []).length := by
        rcases List.getElem?_eq_some_iff.mp hk with ⟨hl, _⟩
        exact hl
      have hdrop : (lookupL es.sig.receiversFor sig.sender []).drop k =
          cid :: (lookupL es.sig.receiversFor sig.sender []).drop (k + 1) := by
        rw [List.drop_eq_getElem_cons hklt]
        rcases List.getElem?_eq_some_iff.mp hk with ⟨hl, hv⟩
        rw [hv]
      cases hl : liveMatch es.sig sig.id cid with
      | false =>
        rw [emitStep_skip beh sig args k es cid hk hl]
        rw [ih (k + 1) es]
        rw [hdrop]
        simp [hl]
      | true =>
        rw [emitStep_invoke beh sig args k es cid hk hl]
        rw [invokeSlot_pure beh args cid (connAt es.sig cid) es (hb _)]
        rw [ih (k + 1) _]
        rw [hdrop, List.take_succ_cons]
        have hfilter : List.filter (fun c => liveMatch es.sig sig.id c)
            (cid :: List.take fuel
              (List.drop (k + 1) (lookupL es.sig.receiversFor sig.sender []))) =
            cid :: List.filter (fun c => liveMatch es.sig sig.id c)
              (List.take fuel
                (List.drop (k + 1) (lookupL es.sig.receiversFor sig.sender []))) := by
          simp [hl]
        rw [hfilter]
        cases hth : thrownOf (beh (connAt es.sig cid).slot) <;>
          simp [hth, List.filterMap_cons, List.append_assoc]

/-- C1. For a sender with connections s1..sN to the emitting signal, and
slot bodies that do not call back into the registry (but may throw),
emit invokes exactly the live matching entries of the receiver list in
index order — a connection list made in order s1..sN is invoked in that
order — and every token thrown by a slot is caught and routed to the
signal exception handler while the remaining slots are still invoked:
the invocation log is the full filtered list even when slots throw, and
the error log collects the thrown tokens in the same order. -/
theorem emit_invokes_in_order (beh : Behavior) (sig : SignalObj) (args : Nat)
    (st : SigState) (hb : pureBeh beh) :
    (emit beh sig args st).invoked =
      ((lookupL st.receiversFor sig.sender []).filter
          (fun cid => liveMatch st sig.id cid)).map
        (fun cid => (cid, (connAt st cid).slot)) ∧
    (emit beh sig args st).errors =
      ((lookupL st.receiversFor sig.sender []).filter
          (fun cid => liveMatch st sig.id cid)).filterMap
        (fun cid => thrownOf (beh (connAt st cid).slot)) := by
  unfold emit
  by_cases h : (lookupL st.receiversFor sig.sender []).isEmpty
  · have hnil : lookupL st.receiversFor sig.sender [] = [] := by
      simpa using h
    simp [h, hnil]
  · simp only [h, Bool.false_eq_true, if_false]
    rw [emitSteps_pure beh sig args hb
      (lookupL st.receiversFor sig.sender []).length 0 ⟨st, [], []⟩]
    simp

/-- Witness for C1 at a concrete input: three connections with slots
1, 2, 3 in that order, where slot 2 throws token 99; all three slots are
invoked in connection order and the token is routed to the exception
handler log. -/
theorem emit_invokes_in_order_witness :
    (emit (fun s => if s = 2 then [SlotAction.throws 99] else []) ⟨10, 0⟩ 7
        ⟨[⟨some 10, 1, none⟩, ⟨some 10, 2, none⟩, ⟨some 10, 3, none⟩],
          [(0, [0, 1, 2])], [(1, [0]), (2, [1]), (3, [2])]⟩).invoked =
      [(0, 1), (1, 2), (2, 3)] ∧
    (emit (fun s => if s = 2 then [SlotAction.throws 99] else []) ⟨10, 0⟩ 7
        ⟨[⟨some 10, 1, none⟩, ⟨some 10, 2, none⟩, ⟨some 10, 3, none⟩],
          [(0, [0, 1, 2])], [(1, [0]), (2, [1]), (3, [2])]⟩).errors = [99] := by
  obtain ⟨h1, h2⟩ := emit_invokes_in_order
    (fun s => if s = 2 then [SlotAction.throws 99] else []) ⟨10, 0⟩ 7
    ⟨[⟨some 10, 1, none⟩, ⟨some 10, 2, none⟩, ⟨some 10, 3, none⟩],
      [(0, [0, 1, 2])], [(1, [0]), (2, [1]), (3, [2])]⟩
    (by intro s; by_cases hs : s = 2 <;> simp [hs, pureAct])
  exact ⟨by rw [h1]; decide, by rw [h2]; decide⟩

end Sig

/-! ## C3: connections added during emission are not dispatched -/

namespace Sig

theorem connect_receivers_extends (st : SigState) (sg : SignalObj) (slot : Obj)
    (ctx : Option Obj) (s : Obj) :
    ∃ t, lookupL (connect st sg slot ctx).2.receiversFor s [] =
      lookupL st.receiversFor s [] ++ t := by
  cases hf : findConnection st.heap (lookupL st.receiversFor sg.sender []) sg.id slot ctx with
  | some c =>
    refine ⟨[], ?_⟩
    unfold connect
    simp [hf]
  | none =>
    by_cases hs : s = sg.sender
    · subst hs
      refine ⟨[st.heap.length], ?_⟩
      unfold connect
      simp only [hf]
      rw [lookupL_setL_self]
    · refine ⟨[], ?_⟩
      unfold connect
      simp only [hf]
      rw [lookupL_setL_ne _ _ _ _ _ hs]
      simp

theorem disconnect_receiversFor (st : SigState) (sg : SignalObj) (slot : Obj)
    (ctx : Option Obj) :
    (disconnect st sg slot ctx).2.receiversFor = st.receiversFor := by
  unfold disconnect
  by_cases he : (lookupL st.receiversFor sg.sender []).isEmpty
  · simp [he]
  · simp only [he, Bool.false_eq_true, if_false]
    cases hf : findConnection st.heap (lookupL st.receiversFor sg.sender []) sg.id slot ctx <;>
      simp [hf]

theorem runActions_receivers_extends (s : Obj) :
    ∀ (acts : List SlotAction) (st : SigState),
      ∃ t, lookupL (runActions st acts).1.receiversFor s [] =
        lookupL st.receiversFor s [] ++ t := by
  intro acts
  induction acts with
  | nil => intro st; exact ⟨[], by simp [runActions]⟩
  | cons a rest ih =>
    intro st
    cases a with
    | throws e => exact ⟨[], by simp [runActions]⟩
    | connects sg sl c =>
      obtain ⟨t1, h1⟩ := connect_receivers_extends st sg sl c s
      obtain ⟨t2, h2⟩ := ih (connect st sg sl c).2
      exact ⟨t1 ++ t2, by
        simp only [runActions]
        rw [h2, h1, List.append_assoc]⟩
    | disconnects sg sl c =>
      obtain ⟨t2, h2⟩ := ih (disconnect st sg sl c).2
      exact ⟨t2, by
        simp only [runActions]
        rw [h2, disconnect_receiversFor]⟩

theorem invokeSlot_sig (beh : Behavior) (args : Nat) (cid : Nat) (conn : Connection)
    (es : EmitState) :
    (invokeSlot beh args cid conn es).sig = (runActions es.sig (beh conn.slot)).1 := by
  unfold invokeSlot
  dsimp only
  rcases hr : runActions es.sig (beh conn.slot) with ⟨sg, e⟩
  cases e <;> simp [hr]

theorem invokeSlot_invoked (beh : Behavior) (args : Nat) (cid : Nat) (conn : Connection)
    (es : EmitState) :
    (invokeSlot beh args cid conn es).invoked = es.invoked ++ [(cid, conn.slot)] := by
  unfold invokeSlot
  dsimp only
  rcases hr : runActions es.sig (beh conn.slot) with ⟨sg, e⟩
  cases e <;> simp [hr]

theorem emitSteps_invoked_from_initial (beh : Behavior) (sig : SignalObj) (args : Nat)
    (rs0 : List Nat) :
    ∀ fuel k es,
      (∃ t, lookupL es.sig.receiversFor sig.sender [] = rs0 ++ t) →
      k + fuel ≤ rs0.length →
      ∀ p ∈ (emitSteps beh sig args k fuel es).invoked,
        p ∈ es.invoked ∨ p.1 ∈ rs0 := by
  intro fuel
  induction fuel with
  | zero => intro k es _ _ p hp; exact Or.inl hp
  | succ fuel ih =>
    intro k es hext hb p hp
    rw [emitSteps] at hp
    obtain ⟨t, ht⟩ := hext
    have hklt : k < rs0.length := by omega
    have hget : (lookupL es.sig.receiversFor sig.sender [])[k]? = some rs0[k] := by
      rw [ht, List.getElem?_append_left hklt]
      exact List.getElem?_eq_getElem hklt
    cases hl : liveMatch es.sig sig.id rs0[k] with
    | false =>
      rw [emitStep_skip beh sig args k es rs0[k] hget hl] at hp
      exact ih (k + 1) es ⟨t, ht⟩ (by omega) p hp
    | true =>
      rw [emitStep_invoke beh sig args k es rs0[k] hget hl] at hp
      obtain ⟨t2, ht2⟩ :=
        runActions_receivers_extends sig.sender (beh (connAt es.sig rs0[k]).slot) es.sig
      have hext' : ∃ t3,
          lookupL (invokeSlot beh args rs0[k] (connAt es.sig rs0[k]) es).sig.receiversFor
            sig.sender [] = rs0 ++ t3 :=
        ⟨t ++ t2, by rw [invokeSlot_sig, ht2, ht, List.append_assoc]⟩
      rcases ih (k + 1) _ hext' (by omega) p hp with hin | hmem
      · rw [invokeSlot_invoked] at hin
        rcases List.mem_append.mp hin with h1 | h2
        · exact Or.inl h1
        · have hpv : p = (rs0[k], (connAt es.sig rs0[k]).slot) := by simpa using h2
          subst hpv
          exact Or.inr (List.getElem_mem hklt)
      · exact Or.inr hmem

/-- C3. For every emit call on a well-formed state (every connection id
in the sender's receiver list points into the heap), every invoked
connection already belonged to the receiver list as it stood before the
emission began, and its id is below the pre-emission heap size — so a
connection added by connect for the same sender and signal (or any
other) from inside one of the slots being invoked, whose id is the heap
size at creation time, is never invoked within that same emit call. -/
theorem emit_no_new_dispatch (beh : Behavior) (sig : SignalObj) (args : Nat)
    (st : SigState)
    (hwf : ∀ cid ∈ lookupL st.receiversFor sig.sender [], cid < st.heap.length) :
    ∀ p ∈ (emit beh sig args st).invoked,
      p.1 ∈ lookupL st.receiversFor sig.sender [] ∧ p.1 < st.heap.length := by
  intro p hp
  unfold emit at hp
  by_cases h : (lookupL st.receiversFor sig.sender []).isEmpty
  · simp [h] at hp
  · simp only [h, Bool.false_eq_true, if_false] at hp
    rcases emitSteps_invoked_from_initial beh sig args
        (lookupL st.receiversFor sig.sender [])
        (lookupL st.receiversFor sig.sender []).length 0 ⟨st, [], []⟩
        ⟨[], by simp⟩ (by omega) p hp with hin | hmem
    · simp at hin
    · exact ⟨hmem, hwf _ hmem⟩

/-- Witness for C3 at a concrete input: one connection with slot 1,
whose body connects a new slot 2 to the same signal during emission; the
only invocation is the pre-existing connection 0, and the connection
created during the emission (id 1) is not dispatched. -/
theorem emit_no_new_dispatch_witness :
    ((0 ∈ lookupL
        ({ heap := [⟨some 10, 1, none⟩], receiversFor := [(0, [0])],
           sendersFor := [(1, [0])] } : SigState).receiversFor 0 [] ∧ 0 < 1) ∧
      (emit (fun s => if s = 1 then [SlotAction.connects ⟨10, 0⟩ 2 none] else [])
          ⟨10, 0⟩ 7
          { heap := [⟨some 10, 1, none⟩], receiversFor := [(0, [0])],
            sendersFor := [(1, [0])] }).invoked = [(0, 1)]) := by
  constructor
  · exact emit_no_new_dispatch
      (fun s => if s = 1 then [SlotAction.connects ⟨10, 0⟩ 2 none] else []) ⟨10, 0⟩ 7
      { heap := [⟨some 10, 1, none⟩], receiversFor := [(0, [0])], sendersFor := [(1, [0])] }
      (by decide) (0, 1) (by decide)
  · decide

end Sig

/-! ## C4: connections tombstoned during emission are skipped -/

namespace Sig

theorem runActions_noConnect_receiversFor :
    ∀ acts : List SlotAction, acts.all noConnectAct = true →
      ∀ st : SigState, (runActions st acts).1.receiversFor = st.receiversFor := by
  intro acts
  induction acts with
  | nil => intro _ st; rfl
  | cons a rest ih =>
    intro h st
    cases a with
    | throws e => rfl
    | connects sg sl c => simp [noConnectAct] at h
    | disconnects sg sl c =>
      have hrest : rest.all noConnectAct = true := by
        simpa [noConnectAct] using h
      show (runActions (disconnect st sg sl c).2 rest).1.receiversFor = st.receiversFor
      rw [ih hrest, disconnect_receiversFor]

theorem emitStep_receiversFor (beh : Behavior) (sig : SignalObj) (args : Nat) (k : Nat)
    (es : EmitState) (hb : noConnectBeh beh) :
    (emitStep beh sig args k es).sig.receiversFor = es.sig.receiversFor := by
  cases hk : (lookupL es.sig.receiversFor sig.sender [])[k]? with
  | none => rw [emitStep_none beh sig args k es hk]
  | some cid =>
    cases hl : liveMatch es.sig sig.id cid with
    | false => rw [emitStep_skip beh sig args k es cid hk hl]
    | true =>
      rw [emitStep_invoke beh sig args k es cid hk hl, invokeSlot_sig]
      exact runActions_noConnect_receiversFor _ (hb _) es.sig

theorem emitSteps_receiversFor (beh : Behavior) (sig : SignalObj) (args : Nat)
    (hb : noConnectBeh beh) :
    ∀ fuel k es,
      (emitSteps beh sig args k fuel es).sig.receiversFor = es.sig.receiversFor := by
  intro fuel
  induction fuel with
  | zero => intro k es; rfl
  | succ fuel ih =>
    intro k es
    rw [emitSteps, ih (k + 1) _, emitStep_receiversFor beh sig args k es hb]

theorem emitSteps_add (beh : Behavior) (sig : SignalObj) (args : Nat) :
    ∀ f1 f2 k es,
      emitSteps beh sig args k (f1 + f2) es =
        emitSteps beh sig args (k + f1) f2 (emitSteps beh sig args k f1 es) := by
  intro f1
  induction f1 with
  | zero => intro f2 k es; simp [emitSteps]
  | succ f1 ih =>
    intro f2 k es
    have h1 : f1 + 1 + f2 = f1 + f2 + 1 := by omega
    have h2 : k + 1 + f1 = k + (f1 + 1) := by omega
    rw [h1]
    show emitSteps beh sig args (k + 1) (f1 + f2) (emitStep beh sig args k es) =
      emitSteps beh sig args (k + (f1 + 1))
        f2 (emitSteps beh sig args (k + 1) f1 (emitStep beh sig args k es))
    rw [ih f2 (k + 1) (emitStep beh sig args k es), h2]

theorem emitSteps_invoked_bounded (beh : Behavior) (sig : SignalObj) (args : Nat)
    (hb : noConnectBeh beh) :
    ∀ fuel k es, ∀ p ∈ (emitSteps beh sig args k fuel es).invoked,
      p ∈ es.invoked ∨
      ∃ i, k ≤ i ∧ i < k + fuel ∧
        (lookupL es.sig.receiversFor sig.sender [])[i]? = some p.1 := by
  intro fuel
  induction fuel with
  | zero => intro k es p hp; exact Or.inl hp
  | succ fuel ih =>
    intro k es p hp
    rw [emitSteps] at hp
    have hrs : lookupL (emitStep beh sig args k es).sig.receiversFor sig.sender [] =
        lookupL es.sig.receiversFor sig.sender [] := by
      rw [emitStep_receiversFor beh sig args k es hb]
    rcases ih (k + 1) (emitStep beh sig args k es) p hp with hin | ⟨i, hi1, hi2, hi3⟩
    · cases hk : (lookupL es.sig.receiversFor sig.sender [])[k]? with
      | none =>
        rw [emitStep_none beh sig args k es hk] at hin
        exact Or.inl hin
      | some cid =>
        cases hl : liveMatch es.sig sig.id cid with
        | false =>
          rw [emitStep_skip beh sig args k es cid hk hl] at hin
          exact Or.inl hin
        | true =>
          rw [emitStep_invoke beh sig args k es cid hk hl, invokeSlot_invoked] at hin
          rcases List.mem_append.mp hin with h1 | h2
          · exact Or.inl h1
          · right
            refine ⟨k, Nat.le_refl k, by omega, ?_⟩
            have hpv : p = (cid, (connAt es.sig cid).slot) := by simpa using h2
            rw [hk, hpv]
    · right
      rw [hrs] at hi3
      exact ⟨i, by omega, by omega, hi3⟩

/-- C4. For every emit call with slot bodies that make no connect calls
(so the receiver list is stable), if the connection at index j of the
receiver list no longer has its signal field equal to the emitting
signal by the time the loop reaches index j — for example because an
earlier slot of the same pass disconnected it — then that connection is
not invoked anywhere in the emit call (the receiver list having no
duplicate entries, as connect guarantees). -/
theorem emit_no_stale_dispatch (beh : Behavior) (sig : SignalObj) (args : Nat)
    (st : SigState) (j cid : Nat)
    (hb : noConnectBeh beh)
    (hnd : (lookupL st.receiversFor sig.sender []).Nodup)
    (hj : (lookupL st.receiversFor sig.sender [])[j]? = some cid)
    (htomb : liveMatch (emitSteps beh sig args 0 j ⟨st, [], []⟩).sig sig.id cid = false) :
    ∀ s, (cid, s) ∉ (emit beh sig args st).invoked := by
  intro s hmem
  have hjlt : j < (lookupL st.receiversFor sig.sender []).length := by
    rcases List.getElem?_eq_some_iff.mp hj with ⟨h, _⟩
    exact h
  have hne : (lookupL st.receiversFor sig.sender []).isEmpty = false := by
    cases hrs : lookupL st.receiversFor sig.sender [] with
    | nil => rw [hrs] at hjlt; simp at hjlt
    | cons a l => rfl
  unfold emit at hmem
  simp only [hne, Bool.false_eq_true, if_false] at hmem
  have hsplit : (lookupL st.receiversFor sig.sender []).length =
      j + ((lookupL st.receiversFor sig.sender []).length - j - 1 + 1) := by omega
  rw [hsplit, emitSteps_add, Nat.zero_add] at hmem
  set P := emitSteps beh sig args 0 j (⟨st, [], []⟩ : EmitState) with hP
  have hrsP : lookupL P.sig.receiversFor sig.sender [] =
      lookupL st.receiversFor sig.sender [] := by
    rw [hP, emitSteps_receiversFor beh sig args hb]
  rw [emitSteps] at hmem
  have hstep : emitStep beh sig args j P = P :=
    emitStep_skip beh sig args j P cid (by rw [hrsP]; exact hj) htomb
  rw [hstep] at hmem
  have hidx : ∀ i, (lookupL st.receiversFor sig.sender [])[i]? = some cid → i = j := by
    intro i hi
    have hilt : i < (lookupL st.receiversFor sig.sender []).length := by
      rcases List.getElem?_eq_some_iff.mp hi with ⟨h, _⟩
      exact h
    exact List.getElem?_inj hilt hnd (hi.trans hj.symm)
  rcases emitSteps_invoked_bounded beh sig args hb _ (j + 1) P (cid, s) hmem with
    hin | ⟨i, hi1, _, hi3⟩
  · rw [hP] at hin
    rcases emitSteps_invoked_bounded beh sig args hb j 0 ⟨st, [], []⟩ (cid, s) hin with
      h0 | ⟨i, _, hi2, hi3⟩
    · simp at h0
    · have := hidx i hi3
      omega
  · rw [hrsP] at hi3
    have := hidx i hi3
    omega

/-- Witness for C4 at a concrete input: three connections with slots
1, 2, 3, where slot 1 disconnects slot 3's connection (index 2, id 2)
during its own invocation; when the loop reaches index 2 the connection
is tombstoned and it is not invoked, while slots 1 and 2 are. -/
theorem emit_no_stale_dispatch_witness :
    (2, 3) ∉ (emit (fun s => if s = 1 then [SlotAction.disconnects ⟨10, 0⟩ 3 none] else [])
        ⟨10, 0⟩ 7
        { heap := [⟨some 10, 1, none⟩, ⟨some 10, 2, none⟩, ⟨some 10, 3, none⟩],
          receiversFor := [(0, [0, 1, 2])],
          sendersFor := [(1, [0]), (2, [1]), (3, [2])] }).invoked ∧
    (emit (fun s => if s = 1 then [SlotAction.disconnects ⟨10, 0⟩ 3 none] else [])
        ⟨10, 0⟩ 7
        { heap := [⟨some 10, 1, none⟩, ⟨some 10, 2, none⟩, ⟨some 10, 3, none⟩],
          receiversFor := [(0, [0, 1, 2])],
          sendersFor := [(1, [0]), (2, [1]), (3, [2])] }).invoked = [(0, 1), (1, 2)] := by
  constructor
  · exact emit_no_stale_dispatch
      (fun s => if s = 1 then [SlotAction.disconnects ⟨10, 0⟩ 3 none] else []) ⟨10, 0⟩ 7
      { heap := [⟨some 10, 1, none⟩, ⟨some 10, 2, none⟩, ⟨some 10, 3, none⟩],
        receiversFor := [(0, [0, 1, 2])],
        sendersFor := [(1, [0]), (2, [1]), (3, [2])] } 2 2
      (by intro s; by_cases hs : s = 1 <;> simp [hs, noConnectAct])
      (by decide) (by decide) (by decide) 3
  · decide

end Sig

/-! ## C9: the deferred cleaner's scheduling discipline -/

namespace Cleaner

theorem clean_eq (st : CleanerState) (a : Nat) :
    clean st a =
      if st.dirtySet = [] then
        { dirtySet := [a], scheduleId := st.nextId,
          pendingTasks := st.pendingTasks ++ [st.nextId], nextId := st.nextId + 1 }
      else if a ∈ st.dirtySet then st
      else { st with dirtySet := st.dirtySet ++ [a] } := by
  by_cases h : st.dirtySet = []
  · simp [clean, h]
  · have hl : ¬st.dirtySet.length = 0 := by simpa [List.length_eq_zero] using h
    by_cases hc : a ∈ st.dirtySet
    · simp [clean, hl, h, hc]
    · simp [clean, hl, h, hc]

theorem clean_pendingTasks (st : CleanerState) (a : Nat) :
    (clean st a).pendingTasks =
      (if st.dirtySet = [] then st.pendingTasks ++ [st.nextId] else st.pendingTasks) := by
  rw [clean_eq]
  by_cases h : st.dirtySet = []
  · simp [h]
  · by_cases hc : a ∈ st.dirtySet <;> simp [h, hc]

theorem clean_dirtySet (st : CleanerState) (a : Nat) :
    (clean st a).dirtySet =
      (if a ∈ st.dirtySet then st.dirtySet else st.dirtySet ++ [a]) := by
  rw [clean_eq]
  by_cases h : st.dirtySet = []
  · simp [h]
  · by_cases hc : a ∈ st.dirtySet <;> simp [h, hc]

theorem cancel_eq (st : CleanerState) :
    cancel st =
      if st.scheduleId = 0 then st
      else
        { st with
          pendingTasks := st.pendingTasks.erase st.scheduleId
          scheduleId := 0 } := by
  unfold cancel
  by_cases h : st.scheduleId = 0 <;> simp [h]

theorem cancel_noop (st : CleanerState) (h : st.scheduleId = 0) : cancel st = st := by
  rw [cancel_eq]
  simp [h]

theorem cancel_dirtySet (st : CleanerState) : (cancel st).dirtySet = st.dirtySet := by
  rw [cancel_eq]
  by_cases h : st.scheduleId = 0 <;> simp [h]

theorem Inv_clean (st : CleanerState) (a : Nat) (h : Inv st) : Inv (clean st a) := by
  obtain ⟨hn, hc⟩ := h
  rw [clean_eq]
  by_cases hd : st.dirtySet = []
  · rcases hc with ⟨hp, _⟩ | ⟨_, _, hne⟩
    · rw [if_pos hd]
      exact ⟨show 1 ≤ st.nextId + 1 by omega,
        Or.inr ⟨show st.pendingTasks ++ [st.nextId] = [st.nextId] by rw [hp]; rfl,
          show st.nextId ≠ 0 by omega, show [a] ≠ [] by simp⟩⟩
    · exact absurd hd hne
  · rw [if_neg hd]
    by_cases hc2 : a ∈ st.dirtySet
    · rw [if_pos hc2]
      exact ⟨hn, hc⟩
    · rw [if_neg hc2]
      refine ⟨hn, ?_⟩
      rcases hc with ⟨hp, hs⟩ | ⟨hp, hs, _⟩
      · exact Or.inl ⟨hp, hs⟩
      · exact Or.inr ⟨hp, hs, show st.dirtySet ++ [a] ≠ [] by simp⟩

theorem Inv_cancel (st : CleanerState) (h : Inv st) : Inv (cancel st) := by
  obtain ⟨hn, hc⟩ := h
  rw [cancel_eq]
  by_cases hs : st.scheduleId = 0
  · rw [if_pos hs]
    exact ⟨hn, hc⟩
  · rw [if_neg hs]
    rcases hc with ⟨_, hs0⟩ | ⟨hp, _, _⟩
    · exact absurd hs0 hs
    · exact ⟨hn, Or.inl
        ⟨show st.pendingTasks.erase st.scheduleId = [] by rw [hp]; simp, rfl⟩⟩

theorem InvNC_clean (st : CleanerState) (a : Nat) (h : InvNC st) : InvNC (clean st a) := by
  obtain ⟨hinv, himp⟩ := h
  refine ⟨Inv_clean st a hinv, ?_⟩
  rw [clean_eq]
  by_cases hd : st.dirtySet = []
  · rw [if_pos hd]
    exact fun _ => show st.pendingTasks ++ [st.nextId] ≠ [] by simp
  · rw [if_neg hd]
    by_cases hc2 : a ∈ st.dirtySet
    · rw [if_pos hc2]
      exact fun _ => himp hd
    · rw [if_neg hc2]
      exact fun _ => himp hd

theorem runOps_Inv (ops : List CleanerOp) :
    ∀ st, Inv st → Inv (runOps ops st) := by
  induction ops with
  | nil => intro st h; exact h
  | cons op rest ih =>
    intro st h
    have hstep :
        runOps (op :: rest) st =
          runOps rest
            (match op with
              | CleanerOp.registerDirty a => clean st a
              | CleanerOp.cancelPending => cancel st) := rfl
    rw [hstep]
    cases op with
    | registerDirty a => exact ih _ (Inv_clean st a h)
    | cancelPending => exact ih _ (Inv_cancel st h)

theorem runOps_InvNC (ops : List CleanerOp) (hnc : CleanerOp.cancelPending ∉ ops) :
    ∀ st, InvNC st → InvNC (runOps ops st) := by
  induction ops with
  | nil => intro st h; exact h
  | cons op rest ih =>
    intro st h
    have hop : op ≠ CleanerOp.cancelPending := fun he => hnc (he ▸ List.mem_cons_self op rest)
    have hrest : CleanerOp.cancelPending ∉ rest := fun he => hnc (List.mem_cons_of_mem op he)
    cases op with
    | registerDirty a => exact ih hrest _ (InvNC_clean st a h)
    | cancelPending => exact absurd rfl hop

/-- C9 as stated is false on the code: cancel unschedules the deferred
task but leaves the dirty set intact, so after registerDirty(0) followed
by cancelPending() the pending set is non-empty while no task is
scheduled. -/
theorem cleaner_invariant_counterexample :
    (runOps [CleanerOp.registerDirty 0, CleanerOp.cancelPending] initState).dirtySet ≠ [] ∧
    (runOps [CleanerOp.registerDirty 0, CleanerOp.cancelPending] initState).pendingTasks.length
      ≠ 1 := by
  decide

/-- C9, amended. registerDirty (clean) schedules a task exactly when the
pending set is empty at the time of the call and otherwise only adds the
array to the pending set; cancelPending (cancel) unschedules the task
without compacting — and without clearing the pending set — and is a
no-op when nothing is scheduled; after any interleaving of registerDirty
and cancelPending calls from a fresh cleaner at most one task is
scheduled, and if the interleaving contains no cancelPending call, a
non-empty pending set implies exactly one scheduled task. -/
theorem cleaner_schedule_discipline :
    (∀ st a,
      (clean st a).pendingTasks =
        (if st.dirtySet = [] then st.pendingTasks ++ [st.nextId] else st.pendingTasks) ∧
      (clean st a).dirtySet =
        (if a ∈ st.dirtySet then st.dirtySet else st.dirtySet ++ [a])) ∧
    (∀ st, (st.scheduleId = 0 → cancel st = st) ∧ (cancel st).dirtySet = st.dirtySet) ∧
    (∀ ops,
      (runOps ops initState).pendingTasks.length ≤ 1 ∧
      (CleanerOp.cancelPending ∉ ops →
        (runOps ops initState).dirtySet ≠ [] →
        (runOps ops initState).pendingTasks.length = 1)) := by
  refine ⟨fun st a => ⟨clean_pendingTasks st a, clean_dirtySet st a⟩,
    fun st => ⟨cancel_noop st, cancel_dirtySet st⟩, fun ops => ⟨?_, ?_⟩⟩
  · have h := runOps_Inv ops initState ⟨by decide, Or.inl ⟨rfl, rfl⟩⟩
    rcases h.2 with ⟨hp, _⟩ | ⟨hp, _, _⟩ <;> simp [hp]
  · intro hnc hd
    have h := runOps_InvNC ops hnc initState
      ⟨⟨by decide, Or.inl ⟨rfl, rfl⟩⟩, fun hh => absurd rfl hh⟩
    rcases h.1.2 with ⟨hp, _⟩ | ⟨hp, _, _⟩
    · exact absurd (h.2 hd) (by simp [hp])
    · simp [hp]

/-- Witness for the amended C9 at concrete inputs: two registrations
from a fresh cleaner leave exactly one scheduled task, and the first
registration of array 5 marks it dirty. -/
theorem cleaner_schedule_discipline_witness :
    (runOps [CleanerOp.registerDirty 5, CleanerOp.registerDirty 6]
      initState).pendingTasks.length = 1 ∧
    (clean initState 5).dirtySet = [5] := by
  constructor
  · exact (cleaner_schedule_discipline.2.2
      [CleanerOp.registerDirty 5, CleanerOp.registerDirty 6]).2 (by decide) (by decide)
  · rw [(cleaner_schedule_discipline.1 initState 5).2]
    decide

end Cleaner

end Luban
